import Mathlib

/-!
Verification of the HardStress stress-session engine.

This file is a shallow embedding, in Lean 4, of the parts of the
HardStress C sources (`src/utils.c`, `src/core.c`, `src/metrics.c`,
`src/main.c`) that the verified properties are about:

* the `splitmix64` pseudo-random generator and the `shuffle32`
  Fisher-Yates shuffle with rejection sampling (`src/utils.c`);
* the worker's pointer-chase index construction (`worker_main`,
  `src/core.c`);
* the integer and FPU stress kernels and the worker's per-sweep kernel
  invocations (`src/core.c`);
* the circular history buffers and their write operation
  (`src/core.c`, `src/metrics.c`, `src/main.c`);
* the CPU-usage computation `compute_usage` (`src/metrics.c`);
* a resource-level model of the controller's startup/rollback sequence
  (`controller_thread_func`, `src/core.c`) and of the worker's
  allocation-failure paths (`worker_main`, `src/core.c`).

Machine integers (`uint64_t`, `size_t`, `uint32_t`) are modelled as
`Nat` with explicit reduction modulo `2 ^ 64` exactly where the C
arithmetic wraps; C `double` values are modelled as `ℚ`; fallible
allocation and the potentially unbounded rejection-sampling loop are
modelled with `Option` and explicit fuel.
-/

namespace HardStress

/-- The modulus of 64-bit unsigned arithmetic. -/
def U64 : Nat := 2 ^ 64

/-- Embedding of `splitmix64` from `src/utils.c`.  The C function first
advances the 64-bit state `*x` by the golden-ratio increment and then
mixes the new state; here it returns `(new state, output)`. -/
def splitmix64 (x : Nat) : Nat × Nat :=
  let x2 := (x + 0x9E3779B97F4A7C15) % U64
  let z1 := ((x2 ^^^ (x2 >>> 30)) * 0xBF58476D1CE4E5B9) % U64
  let z2 := ((z1 ^^^ (z1 >>> 27)) * 0x94D049BB133111EB) % U64
  (x2, z2 ^^^ (z2 >>> 31))

/-- The output sequence of `splitmix64` started from state `s`:
`splitmix64_seq s k` is the `k`-th output (0-based). -/
def splitmix64_seq (s : Nat) : Nat → Nat
  | 0 => (splitmix64 s).2
  | k + 1 => splitmix64_seq (splitmix64 s).1 k

/-- Embedding of the static `mix64` avalanche function from
`src/core.c` (three xor-shift/multiply rounds). -/
def mix64 (x : Nat) : Nat :=
  let a := x ^^^ (x >>> 33)
  let b := (a * 0xff51afd7ed558ccd) % U64
  let c := b ^^^ (b >>> 33)
  let d := (c * 0xc4ceb9fe1a85ec53) % U64
  d ^^^ (d >>> 33)

/-- The swap performed by the loop body of `shuffle32`
(`tmp = a[i]; a[i] = a[j]; a[j] = tmp`).  Out-of-range positions leave
the list unchanged; they never occur inside `shuffle32`. -/
def swapList (a : List Nat) (i j : Nat) : List Nat :=
  match a[i]?, a[j]? with
  | some vi, some vj => (a.set i vj).set j vi
  | _, _ => a

/-- The rejection-sampling step of `shuffle32`: draw `splitmix64`
outputs starting from `seed` until one is `< limit`; returns
`(new seed, accepted value)`.  The C `do … while` loop is given
explicit `fuel`. -/
def draw_below (seed limit fuel : Nat) : Option (Nat × Nat) :=
  match fuel with
  | 0 => none
  | fuel + 1 =>
    let p := splitmix64 seed
    if p.2 < limit then some p else draw_below p.1 limit fuel

/-- The Fisher-Yates loop of `shuffle32`; the last argument is the C
loop variable `i` (the loop body runs for `i = n-1, …, 1`, and for loop
variable `i` the bound used for `limit` and for the reduction of the
accepted draw is `i + 1`). -/
def shuffle_loop : List Nat → Nat → Nat → Nat → Option (List Nat × Nat)
  | a, seed, _, 0 => some (a, seed)
  | a, seed, fuel, i + 1 =>
    let limit := (U64 - 1) - (U64 - 1) % (i + 2)
    match draw_below seed limit fuel with
    | none => none
    | some (s, r) => shuffle_loop (swapList a (i + 1) (r % (i + 2))) s fuel i

/-- Embedding of `shuffle32` from `src/utils.c` on a list of 32-bit
values (the C `NULL`-array guard does not arise for lists; `n ≤ 1`
returns the array unchanged, as in the C early return). -/
def shuffle32 (a : List Nat) (seed fuel : Nat) : Option (List Nat × Nat) :=
  if a.length ≤ 1 then some (a, seed) else shuffle_loop a seed fuel (a.length - 1)

/-- The pointer-chase index construction of `worker_main`
(`src/core.c`, lines 248–262): fill the index array with the identity
permutation, shuffle it with `shuffle32`, then force the last slot to
point at index 0. -/
def worker_build_idx (n seed fuel : Nat) : Option (List Nat) :=
  match shuffle32 (List.range n) seed fuel with
  | none => none
  | some (a, _) => some (a.set (n - 1) 0)

/-- One pointer-chase step `i = idx[i]` of `kernel_ptrchase`
(`src/core.c`).  Positions are always in range in the program; the
default 0 is irrelevant there. -/
def chase_step (idx : List Nat) (i : Nat) : Nat := idx.getD i 0

/-- The first `n` positions visited by the pointer chase started at
index 0. -/
def chase_orbit (idx : List Nat) (n : Nat) : List Nat :=
  (List.range n).map (fun k => (chase_step idx)^[k] 0)

/-- The single-cycle property the spec claims for the built index
array: walking `i = idx[i]` from index 0 visits `idx.length` distinct
indices and then returns to 0. -/
def forms_single_cycle (idx : List Nat) : Prop :=
  (chase_orbit idx idx.length).Nodup ∧ (chase_step idx)^[idx.length] 0 = 0

instance (idx : List Nat) : Decidable (forms_single_cycle idx) := by
  unfold forms_single_cycle
  infer_instance

lemma boole_getElem_le_count (a : List Nat) (i x : Nat) (hi : i < a.length) :
    (if a[i] = x then 1 else 0) ≤ a.count x := by
  split
  · next h =>
    have hx : x ∈ a := h ▸ a.getElem_mem hi
    simpa [List.count_pos_iff] using hx
  · exact Nat.zero_le _

lemma count_swapList (a : List Nat) (i j x : Nat) :
    (swapList a i j).count x = a.count x := by
  cases hvi : a[i]? with
  | none => simp [swapList, hvi]
  | some vi =>
    cases hvj : a[j]? with
    | none => simp [swapList, hvi, hvj]
    | some vj =>
      obtain ⟨hi, hvi'⟩ := List.getElem?_eq_some_iff.mp hvi
      obtain ⟨hj, hvj'⟩ := List.getElem?_eq_some_iff.mp hvj
      have hj' : j < (a.set i vj).length := by simpa using hj
      simp only [swapList, hvi, hvj]
      rw [List.count_set _ _ _ _ hj', List.count_set _ _ _ _ hi]
      by_cases hij : i = j
      · subst hij
        have hvv : vi = vj := by rw [← hvi', ← hvj']
        subst hvv
        have hset := List.getElem_set_self (l := a) (i := i) (a := vi) hj'
        have hle := boole_getElem_le_count a i x hi
        rw [hvi'] at hle
        simp only [hset, hvi', beq_iff_eq]
        split_ifs at hle ⊢ <;> omega
      · have hset := List.getElem_set_ne (l := a) (a := vj) hij hj'
        have h1 := boole_getElem_le_count a i x hi
        have h2 := boole_getElem_le_count a j x hj
        rw [hvi'] at h1; rw [hvj'] at h2
        simp only [hset, hvi', hvj', beq_iff_eq]
        split_ifs at h1 h2 ⊢ <;> omega

lemma swapList_perm (a : List Nat) (i j : Nat) : (swapList a i j).Perm a := by
  rw [List.perm_iff_count]
  intro x
  exact count_swapList a i j x

lemma shuffle_loop_perm :
    ∀ (i : Nat) (a : List Nat) (seed fuel : Nat) (out : List Nat × Nat),
      shuffle_loop a seed fuel i = some out → out.1.Perm a := by
  intro i
  induction i with
  | zero =>
    intro a seed fuel out h
    simp only [shuffle_loop, Option.some.injEq] at h
    rw [← h]
  | succ i ih =>
    intro a seed fuel out h
    simp only [shuffle_loop] at h
    split at h
    · exact absurd h (by simp)
    · next s r hd =>
      exact (ih _ _ _ _ h).trans (swapList_perm a (i + 1) (r % (i + 2)))

/-- C7: `shuffle32` preserves the multiset of the array's elements —
whenever the embedded shuffle completes (for any array, seed and
rejection-sampling fuel), its output is a permutation of its input. -/
theorem shuffle32_preserves_multiset (a : List Nat) (seed fuel : Nat)
    (out : List Nat × Nat) (h : shuffle32 a seed fuel = some out) :
    out.1.Perm a := by
  unfold shuffle32 at h
  split at h
  · simp only [Option.some.injEq] at h
    rw [← h]
  · exact shuffle_loop_perm _ _ _ _ _ h

theorem shuffle32_preserves_multiset_witness :
    shuffle32 [3, 1, 2] 42 8 = some ([3, 2, 1], 4354685564936845396) ∧
      ([3, 2, 1] : List Nat).Perm [3, 1, 2] :=
  ⟨by decide,
    shuffle32_preserves_multiset [3, 1, 2] 42 8 ([3, 2, 1], 4354685564936845396) (by decide)⟩

/-- C1 (evaluation of the code at a failing input): the worker's
pointer-chase index construction does not produce a single cycle
covering all indices.  For a buffer of `N = 2` four-byte indices and
the worker's own seed `0x12340000 + tid` with `tid = 0` (only the
pointer-chase kernel enabled, so the seed is untouched by the buffer
initialisation), the built array is `[0, 0]`: the walk `i = idx[i]`
from index 0 revisits 0 after one step, covering 1 index instead of 2.
Overwriting the last slot with 0 duplicates the value 0 and drops the
value previously stored there, so the shuffled permutation is in
general destroyed rather than closed into one cycle. -/
theorem ptrchase_single_cycle_fails :
    worker_build_idx 2 0x12340000 16 = some [0, 0] ∧
      ¬ forms_single_cycle [0, 0] := by
  constructor
  · decide
  · decide

/-- One xor-shift round `z ^ (z >> k)`. -/
def xshift (k z : Nat) : Nat := z ^^^ (z >>> k)

/-- Wrapping 64-bit multiplication by a constant. -/
def mulmod (c z : Nat) : Nat := z * c % U64

/-- The finalizer of `splitmix64`, the mixing applied to the advanced
state, written as a composition of its rounds; definitionally,
`splitmix64 x = ((x + γ) % 2^64, sm_fin ((x + γ) % 2^64))`. -/
def sm_fin (z : Nat) : Nat :=
  xshift 31 (mulmod 0x94D049BB133111EB (xshift 27 (mulmod 0xBF58476D1CE4E5B9 (xshift 30 z))))

lemma splitmix64_fst (x : Nat) : (splitmix64 x).1 = (x + 0x9E3779B97F4A7C15) % U64 := rfl

lemma splitmix64_snd (x : Nat) :
    (splitmix64 x).2 = sm_fin ((x + 0x9E3779B97F4A7C15) % U64) := rfl

lemma xor_shiftRight_lt {z : Nat} (k : Nat) (hz : z < U64) : z ^^^ (z >>> k) < U64 := by
  apply Nat.xor_lt_two_pow hz
  calc z >>> k = z / 2 ^ k := Nat.shiftRight_eq_div_pow z k
  _ ≤ z := Nat.div_le_self z (2 ^ k)
  _ < U64 := hz

lemma recover_xorshift (k z : Nat) (hk : 64 ≤ 3 * k) (hz : z < U64) :
    ((z ^^^ (z >>> k)) ^^^ ((z ^^^ (z >>> k)) >>> k)) ^^^ ((z ^^^ (z >>> k)) >>> (2 * k)) =
      z := by
  apply Nat.eq_of_testBit_eq
  intro i
  have hhigh : z.testBit (k + (2 * k + i)) = false := by
    apply Nat.testBit_eq_false_of_lt
    calc z < 2 ^ 64 := hz
    _ ≤ 2 ^ (k + (2 * k + i)) := Nat.pow_le_pow_right (by norm_num) (by omega)
  have heq : k + (k + i) = 2 * k + i := by ring
  simp only [Nat.testBit_xor, Nat.testBit_shiftRight, heq, hhigh]
  cases z.testBit i <;> cases z.testBit (k + i) <;> cases z.testBit (2 * k + i) <;> rfl

lemma xshift_lt {z : Nat} (k : Nat) (hz : z < U64) : xshift k z < U64 :=
  xor_shiftRight_lt k hz

lemma mulmod_lt (c z : Nat) : mulmod c z < U64 :=
  Nat.mod_lt _ (by norm_num [U64])

lemma xshift_inj {k z w : Nat} (hk : 64 ≤ 3 * k) (hz : z < U64) (hw : w < U64)
    (h : xshift k z = xshift k w) : z = w := by
  have h1 := recover_xorshift k z hk hz
  have h2 := recover_xorshift k w hk hw
  unfold xshift at h
  rw [← h1, ← h2, h]

lemma mulmod_inj {c z w : Nat} (hc : Nat.gcd U64 c = 1) (hz : z < U64) (hw : w < U64)
    (h : mulmod c z = mulmod c w) : z = w := by
  have hmod : z ≡ w [MOD U64] :=
    Nat.ModEq.cancel_right_of_coprime hc h
  calc z = z % U64 := (Nat.mod_eq_of_lt hz).symm
  _ = w % U64 := hmod
  _ = w := Nat.mod_eq_of_lt hw

lemma sm_fin_inj {z w : Nat} (hz : z < U64) (hw : w < U64) (h : sm_fin z = sm_fin w) :
    z = w := by
  unfold sm_fin at h
  have a1z := xshift_lt 30 hz
  have a1w := xshift_lt 30 hw
  have a2z := mulmod_lt 0xBF58476D1CE4E5B9 (xshift 30 z)
  have a2w := mulmod_lt 0xBF58476D1CE4E5B9 (xshift 30 w)
  have a3z := xshift_lt 27 a2z
  have a3w := xshift_lt 27 a2w
  have a4z := mulmod_lt 0x94D049BB133111EB (xshift 27 (mulmod 0xBF58476D1CE4E5B9 (xshift 30 z)))
  have a4w := mulmod_lt 0x94D049BB133111EB (xshift 27 (mulmod 0xBF58476D1CE4E5B9 (xshift 30 w)))
  exact xshift_inj (by norm_num) hz hw
    (mulmod_inj (by decide) a1z a1w
      (xshift_inj (by norm_num) a2z a2w
        (mulmod_inj (by decide) a3z a3w
          (xshift_inj (by norm_num) a4z a4w h))))

/-- C9: the pseudo-random engine `splitmix64` is deterministic — runs
started from equal 64-bit state values produce identical output
sequences — and from every starting state its first two outputs are
distinct (the finalizer is a bijection of the 64-bit state space and
the two advanced states differ by the odd golden-ratio increment). -/
theorem splitmix64_deterministic_and_no_short_repeat :
    (∀ s t : Nat, s = t → ∀ k, splitmix64_seq s k = splitmix64_seq t k) ∧
      ∀ s : Nat, splitmix64_seq s 0 ≠ splitmix64_seq s 1 := by
  constructor
  · intro s t h k
    rw [h]
  · intro s h
    have e0 : splitmix64_seq s 0 = sm_fin ((s + 0x9E3779B97F4A7C15) % U64) :=
      splitmix64_snd s
    have e1 : splitmix64_seq s 1 =
        sm_fin (((s + 0x9E3779B97F4A7C15) % U64 + 0x9E3779B97F4A7C15) % U64) :=
      splitmix64_snd (splitmix64 s).1
    rw [e0, e1] at h
    have ha : (s + 0x9E3779B97F4A7C15) % U64 < U64 := Nat.mod_lt _ (by norm_num [U64])
    have hb : ((s + 0x9E3779B97F4A7C15) % U64 + 0x9E3779B97F4A7C15) % U64 < U64 :=
      Nat.mod_lt _ (by norm_num [U64])
    have hab := sm_fin_inj ha hb h
    have hval : U64 = 18446744073709551616 := by norm_num [U64]
    rcases Nat.lt_or_ge ((s + 0x9E3779B97F4A7C15) % U64 + 0x9E3779B97F4A7C15) U64 with
      hcase | hcase
    · rw [Nat.mod_eq_of_lt hcase] at hab
      omega
    · have hs : ((s + 0x9E3779B97F4A7C15) % U64 + 0x9E3779B97F4A7C15) % U64 =
          (s + 0x9E3779B97F4A7C15) % U64 + 0x9E3779B97F4A7C15 - U64 := by
        rw [Nat.mod_eq_sub_mod hcase]
        exact Nat.mod_eq_of_lt (by omega)
      rw [hs] at hab
      omega

theorem splitmix64_deterministic_and_no_short_repeat_witness :
    splitmix64_seq 12345 0 = splitmix64_seq 12345 0 ∧
      splitmix64_seq 12345 0 ≠ splitmix64_seq 12345 1 :=
  ⟨splitmix64_deterministic_and_no_short_repeat.1 12345 12345 rfl 0,
    splitmix64_deterministic_and_no_short_repeat.2 12345⟩


/-- A `/proc/stat` sample row (`cpu_sample_t`, `src/hardstress.h`):
cumulative tick counters, each an `unsigned long long`. -/
structure cpu_sample_t where
  user : Nat
  nice : Nat
  system : Nat
  idle : Nat
  iowait : Nat
  irq : Nat
  softirq : Nat
  steal : Nat
deriving DecidableEq

/-- The idle tick sum `idle + iowait` used by `compute_usage`. -/
def idle_sum (s : cpu_sample_t) : Nat := s.idle + s.iowait

/-- The busy tick sum `user + nice + system + irq + softirq + steal`
used by `compute_usage`. -/
def busy_sum (s : cpu_sample_t) : Nat :=
  s.user + s.nice + s.system + s.irq + s.softirq + s.steal

/-- Embedding of `compute_usage` from `src/metrics.c`.  The C function
computes with `unsigned long long` (wrapping 64-bit) arithmetic — each
sum and difference is reduced modulo `2 ^ 64`, and the unsigned
difference `y - x` is `(y + (2^64 - x)) % 2^64` — and returns a
`double`; the real-valued result is modelled as `ℚ`. -/
def compute_usage (a b : cpu_sample_t) : ℚ :=
  let idle_a := idle_sum a % U64
  let idle_b := idle_sum b % U64
  let nonidle_a := busy_sum a % U64
  let nonidle_b := busy_sum b % U64
  let total_a := (idle_a + nonidle_a) % U64
  let total_b := (idle_b + nonidle_b) % U64
  let totald := (total_b + (U64 - total_a)) % U64
  let idled := (idle_b + (U64 - idle_a)) % U64
  if totald = 0 then 0
  else
    let perc : ℚ := (((totald + (U64 - idled)) % U64 : Nat) : ℚ) / ((totald : Nat) : ℚ)
    if perc < 0 then 0 else if perc > 1 then 1 else perc

/-- The usage formula in the words of the spec: exact (unbounded) deltas
of the cumulative counters, `usage = (Δtotal − Δidle) / Δtotal` clamped
to `[0,1]`, and 0 when `Δtotal` is 0.  Used to compare `compute_usage`
against the spec sentence. -/
def spec_usage (a b : cpu_sample_t) : ℚ :=
  let dtotal : ℚ := ((idle_sum b + busy_sum b : Nat) : ℚ) - ((idle_sum a + busy_sum a : Nat) : ℚ)
  let didle : ℚ := ((idle_sum b : Nat) : ℚ) - ((idle_sum a : Nat) : ℚ)
  if dtotal = 0 then 0
  else min 1 (max 0 ((dtotal - didle) / dtotal))

/-- Fieldwise monotonicity of two samples (the counters only grow). -/
def sample_le (a b : cpu_sample_t) : Prop :=
  a.user ≤ b.user ∧ a.nice ≤ b.nice ∧ a.system ≤ b.system ∧ a.idle ≤ b.idle ∧
    a.iowait ≤ b.iowait ∧ a.irq ≤ b.irq ∧ a.softirq ≤ b.softirq ∧ a.steal ≤ b.steal

instance (a b : cpu_sample_t) : Decidable (sample_le a b) := by
  unfold sample_le
  infer_instance

/-- The all-zero sample. -/
def sample_zero : cpu_sample_t := ⟨0, 0, 0, 0, 0, 0, 0, 0⟩

/-- A fieldwise-larger sample whose busy counters sum to exactly
`2 ^ 64`, so the C 64-bit total wraps to 0. -/
def sample_wrap : cpu_sample_t := ⟨2 ^ 63, 0, 2 ^ 63, 0, 0, 0, 0, 0⟩

/-- C6 counterexample: for the fieldwise-monotone pair
`(sample_zero, sample_wrap)` the wrapping 64-bit total delta computed by
the C code is 0, so `compute_usage` returns 0, while the claimed value
`(Δtotal − Δidle) / Δtotal` clamped to `[0,1]` (exact counter deltas)
is 1.  The claim as stated, quantified over all fieldwise-monotone
pairs, is therefore false; it holds once the counter sums are required
not to overflow 64 bits. -/
theorem compute_usage_overflow_counterexample :
    sample_le sample_zero sample_wrap ∧
      compute_usage sample_zero sample_wrap = 0 ∧
      spec_usage sample_zero sample_wrap = 1 ∧
      compute_usage sample_zero sample_wrap ≠ spec_usage sample_zero sample_wrap := by
  refine ⟨by decide, ?_, ?_, ?_⟩
  · norm_num [compute_usage, sample_zero, sample_wrap, idle_sum, busy_sum, U64]
  · norm_num [spec_usage, sample_zero, sample_wrap, idle_sum, busy_sum]
  · norm_num [compute_usage, spec_usage, sample_zero, sample_wrap, idle_sum, busy_sum, U64]

lemma u64_wrap_sub {x y : Nat} (hxy : x ≤ y) (hy : y < U64) :
    (y + (U64 - x)) % U64 = y - x := by
  have hx : x ≤ U64 := by omega
  have he : y + (U64 - x) = U64 + (y - x) := by omega
  rw [he, Nat.add_mod_left, Nat.mod_eq_of_lt (by omega)]

lemma compute_usage_self (a : cpu_sample_t) : compute_usage a a = 0 := by
  have hlt : (idle_sum a % U64 + busy_sum a % U64) % U64 < U64 :=
    Nat.mod_lt _ (by norm_num [U64])
  simp only [compute_usage]
  rw [u64_wrap_sub (Nat.le_refl _) hlt]
  simp

/-- C6 (amended): `compute_usage` returns 0 on equal samples and, for
every fieldwise-monotone pair of samples whose exact counter total
stays below `2 ^ 64` (no 64-bit overflow), it returns exactly
`(Δtotal − Δidle) / Δtotal` clamped into `[0, 1]` — the spec-side
formula `spec_usage` — and the result lies in `[0, 1]`. -/
theorem compute_usage_correct (a b : cpu_sample_t) (hmono : sample_le a b)
    (hov : idle_sum b + busy_sum b < U64) :
    compute_usage a b = spec_usage a b ∧
      0 ≤ compute_usage a b ∧ compute_usage a b ≤ 1 ∧ compute_usage a a = 0 := by
  obtain ⟨h1, h2, h3, h4, h5, h6, h7, h8⟩ := hmono
  have hile : idle_sum a ≤ idle_sum b := by unfold idle_sum; omega
  have hble : busy_sum a ≤ busy_sum b := by unfold busy_sum; omega
  have hib : idle_sum b < U64 := by omega
  have hia : idle_sum a < U64 := by omega
  have hna : busy_sum a < U64 := by omega
  have hnb : busy_sum b < U64 := by omega
  have hta : idle_sum a + busy_sum a < U64 := by omega
  have htle : idle_sum a + busy_sum a ≤ idle_sum b + busy_sum b := by omega
  have hdid : idle_sum b - idle_sum a ≤
      (idle_sum b + busy_sum b) - (idle_sum a + busy_sum a) := by omega
  have hcu : compute_usage a b =
      if (idle_sum b + busy_sum b) - (idle_sum a + busy_sum a) = 0 then (0 : ℚ)
      else
        ((((idle_sum b + busy_sum b) - (idle_sum a + busy_sum a)) -
            (idle_sum b - idle_sum a) : Nat) : ℚ) /
          (((idle_sum b + busy_sum b) - (idle_sum a + busy_sum a) : Nat) : ℚ) := by
    simp only [compute_usage, Nat.mod_eq_of_lt hia, Nat.mod_eq_of_lt hib,
      Nat.mod_eq_of_lt hna, Nat.mod_eq_of_lt hnb, Nat.mod_eq_of_lt hta,
      Nat.mod_eq_of_lt hov]
    rw [u64_wrap_sub htle hov, u64_wrap_sub hile hib, u64_wrap_sub hdid (by omega)]
    split
    · rfl
    · next hne =>
      have hpos : (0 : ℚ) < (((idle_sum b + busy_sum b) - (idle_sum a + busy_sum a) : Nat) : ℚ) :=
        by exact_mod_cast Nat.pos_of_ne_zero hne
      rw [if_neg, if_neg]
      · push_neg
        rw [div_le_one hpos]
        exact_mod_cast Nat.sub_le _ _
      · push_neg
        exact div_nonneg (by positivity) (le_of_lt hpos)
  refine ⟨?_, ?_, ?_, compute_usage_self a⟩
  · rw [hcu]
    simp only [spec_usage]
    by_cases hz : (idle_sum b + busy_sum b) - (idle_sum a + busy_sum a) = 0
    · rw [if_pos hz, if_pos]
      have heq : idle_sum b + busy_sum b = idle_sum a + busy_sum a := by omega
      rw [heq]
      ring
    · have hdq : ((idle_sum b + busy_sum b : Nat) : ℚ) - ((idle_sum a + busy_sum a : Nat) : ℚ) =
          (((idle_sum b + busy_sum b) - (idle_sum a + busy_sum a) : Nat) : ℚ) := by
        rw [Nat.cast_sub htle]
      have hiq : ((idle_sum b : Nat) : ℚ) - ((idle_sum a : Nat) : ℚ) =
          ((idle_sum b - idle_sum a : Nat) : ℚ) := by
        rw [Nat.cast_sub hile]
      have hnq : (((idle_sum b + busy_sum b) - (idle_sum a + busy_sum a) : Nat) : ℚ) -
          ((idle_sum b - idle_sum a : Nat) : ℚ) =
          ((((idle_sum b + busy_sum b) - (idle_sum a + busy_sum a)) -
            (idle_sum b - idle_sum a) : Nat) : ℚ) := by
        rw [Nat.cast_sub hdid]
      have hpos : (0 : ℚ) <
          (((idle_sum b + busy_sum b) - (idle_sum a + busy_sum a) : Nat) : ℚ) := by
        exact_mod_cast Nat.pos_of_ne_zero hz
      rw [if_neg hz, if_neg (by rw [hdq]; exact ne_of_gt hpos), hdq, hiq, hnq]
      have hval : (0 : ℚ) ≤
          ((((idle_sum b + busy_sum b) - (idle_sum a + busy_sum a)) -
            (idle_sum b - idle_sum a) : Nat) : ℚ) /
          (((idle_sum b + busy_sum b) - (idle_sum a + busy_sum a) : Nat) : ℚ) :=
        div_nonneg (by positivity) (le_of_lt hpos)
      have hval1 :
          ((((idle_sum b + busy_sum b) - (idle_sum a + busy_sum a)) -
            (idle_sum b - idle_sum a) : Nat) : ℚ) /
          (((idle_sum b + busy_sum b) - (idle_sum a + busy_sum a) : Nat) : ℚ) ≤ 1 := by
        rw [div_le_one hpos]
        exact_mod_cast Nat.sub_le _ _
      rw [max_eq_right hval, min_eq_right hval1]
  · rw [hcu]
    split
    · exact le_refl 0
    · next hz =>
      have hpos : (0 : ℚ) <
          (((idle_sum b + busy_sum b) - (idle_sum a + busy_sum a) : Nat) : ℚ) := by
        exact_mod_cast Nat.pos_of_ne_zero hz
      exact div_nonneg (by positivity) (le_of_lt hpos)
  · rw [hcu]
    split
    · norm_num
    · next hz =>
      have hpos : (0 : ℚ) <
          (((idle_sum b + busy_sum b) - (idle_sum a + busy_sum a) : Nat) : ℚ) := by
        exact_mod_cast Nat.pos_of_ne_zero hz
      rw [div_le_one hpos]
      exact_mod_cast Nat.sub_le _ _

theorem compute_usage_correct_witness :
    sample_le sample_zero ⟨1, 2, 3, 4, 5, 6, 7, 8⟩ ∧
      (compute_usage sample_zero ⟨1, 2, 3, 4, 5, 6, 7, 8⟩ =
          spec_usage sample_zero ⟨1, 2, 3, 4, 5, 6, 7, 8⟩ ∧
        0 ≤ compute_usage sample_zero ⟨1, 2, 3, 4, 5, 6, 7, 8⟩ ∧
        compute_usage sample_zero ⟨1, 2, 3, 4, 5, 6, 7, 8⟩ ≤ 1 ∧
        compute_usage sample_zero sample_zero = 0) :=
  ⟨by decide,
    compute_usage_correct sample_zero ⟨1, 2, 3, 4, 5, 6, 7, 8⟩ (by decide)
      (by norm_num [idle_sum, busy_sum, U64])⟩


/-- One pass of the inner loop of `kernel_int` (`src/core.c`):
`acc ^= mix64(dst[i] + i); dst[i] = acc + (dst[i] << 1) + (dst[i] >> 3);`
iterated over the remaining words, carrying the 64-bit accumulator, the
element index `i`, and the already-rewritten words (accumulated in
reverse, as the C loop rewrites in place left to right). -/
def kernel_int_pass_aux : Nat → Nat → List Nat → List Nat → Nat × List Nat
  | acc, _, done, [] => (acc, done.reverse)
  | acc, i, done, v :: rest =>
    let acc2 := acc ^^^ mix64 ((v + i) % U64)
    let v2 := (acc2 + (v <<< 1) % U64 + (v >>> 3)) % U64
    kernel_int_pass_aux acc2 (i + 1) (v2 :: done) rest

/-- One full pass of `kernel_int` over the words passed to it. -/
def kernel_int_pass (acc : Nat) (dst : List Nat) : Nat × List Nat :=
  kernel_int_pass_aux acc 0 [] dst

/-- The `iters` passes of the outer loop of `kernel_int`, the
accumulator carried across passes. -/
def kernel_int_go : Nat → Nat → List Nat → List Nat
  | _, 0, dst => dst
  | acc, k + 1, dst =>
    let out := kernel_int_pass acc dst
    kernel_int_go out.1 k out.2

/-- Embedding of `kernel_int` (`src/core.c`): `iters` sequential passes
with the accumulator initialised to `0xC0FFEE`. -/
def kernel_int (dst : List Nat) (iters : Nat) : List Nat :=
  kernel_int_go 0xC0FFEE iters dst

/-- The element count the worker passes to `kernel_int` on each sweep
(`src/core.c`, line 271): `(buf_bytes/8 > 1024) ? 1024 : buf_bytes/8`,
as a function of the buffer's 64-bit word count. -/
def worker_int_n (words : Nat) : Nat := if words > 1024 then 1024 else words

/-- The effect of the worker's per-sweep integer-kernel invocation on
the buffer's words: `kernel_int` is applied (with 4 iterations) to the
first `worker_int_n` words; the rest of the buffer is not passed to the
kernel. -/
def worker_int_sweep (words : List Nat) : List Nat :=
  kernel_int (words.take (worker_int_n words.length)) 4 ++
    words.drop (worker_int_n words.length)

lemma kernel_int_pass_aux_length (l : List Nat) :
    ∀ (acc i : Nat) (done : List Nat),
      (kernel_int_pass_aux acc i done l).2.length = done.length + l.length := by
  induction l with
  | nil =>
    intro acc i done
    simp [kernel_int_pass_aux]
  | cons v rest ih =>
    intro acc i done
    simp only [kernel_int_pass_aux, ih, List.length_cons]
    omega

lemma kernel_int_go_length : ∀ (k acc : Nat) (dst : List Nat),
    (kernel_int_go acc k dst).length = dst.length := by
  intro k
  induction k with
  | zero =>
    intro acc dst
    rfl
  | succ k ih =>
    intro acc dst
    simp only [kernel_int_go, ih, kernel_int_pass, kernel_int_pass_aux_length,
      List.length_nil]
    omega

lemma kernel_int_length (dst : List Nat) (iters : Nat) :
    (kernel_int dst iters).length = dst.length := kernel_int_go_length iters _ dst

/-- C8 counterexample: for a buffer of 1025 64-bit words the worker
passes only `min(1025, 1024) = 1024` words to `kernel_int`, not the
whole buffer, and the last word of a concrete all-5 buffer still holds
its original value 5 after the sweep — it is neither read nor
rewritten by the kernel. -/
theorem kernel_int_cap_counterexample :
    worker_int_n 1025 ≠ 1025 ∧
      (worker_int_sweep (List.replicate 1025 5))[1024]? = some 5 := by
  constructor
  · decide
  · have hn : worker_int_n (List.replicate 1025 (5 : Nat)).length = 1024 := by
      rw [List.length_replicate]
      decide
    have hlen :
        (kernel_int ((List.replicate 1025 (5 : Nat)).take 1024) 4).length = 1024 := by
      rw [kernel_int_length, List.length_take, List.length_replicate]
      omega
    unfold worker_int_sweep
    rw [hn, List.getElem?_append_right (by rw [hlen]), hlen, List.getElem?_drop,
      Nat.sub_self, Nat.add_zero, List.getElem?_replicate]
    decide

/-- C8 (amended): in every iteration of a worker's run loop with the
integer kernel enabled, the kernel is invoked once against the first
`min(words, 1024)` 64-bit words of the buffer, not against the whole
buffer: the sweep preserves the buffer's length, the capped prefix is
exactly the kernel's output on those words, and every word at index
`≥ 1024` is left unchanged. -/
theorem kernel_int_sweep_capped (words : List Nat) :
    (worker_int_sweep words).length = words.length ∧
      (∀ i, i < worker_int_n words.length →
        (worker_int_sweep words)[i]? =
          (kernel_int (words.take (worker_int_n words.length)) 4)[i]?) ∧
      (∀ i, 1024 ≤ i → (worker_int_sweep words)[i]? = words[i]?) := by
  have hn_le : worker_int_n words.length ≤ words.length := by
    unfold worker_int_n
    split <;> omega
  have hA : (kernel_int (words.take (worker_int_n words.length)) 4).length =
      worker_int_n words.length := by
    rw [kernel_int_length, List.length_take]
    omega
  refine ⟨?_, ?_, ?_⟩
  · unfold worker_int_sweep
    rw [List.length_append, hA, List.length_drop]
    omega
  · intro i hi
    unfold worker_int_sweep
    rw [List.getElem?_append_left (by rw [hA]; exact hi)]
  · intro i hi
    have hiA : worker_int_n words.length ≤ i := by
      unfold worker_int_n
      split <;> omega
    unfold worker_int_sweep
    rw [List.getElem?_append_right (by rw [hA]; exact hiA), hA, List.getElem?_drop]
    by_cases hlen : i < words.length
    · have : worker_int_n words.length + (i - worker_int_n words.length) = i := by omega
      rw [this]
    · rw [List.getElem?_eq_none (by omega), List.getElem?_eq_none (by omega)]

theorem kernel_int_sweep_capped_witness :
    (worker_int_sweep [1, 2, 3]).length = ([1, 2, 3] : List Nat).length ∧
      (worker_int_sweep [1, 2, 3])[2]? =
        (kernel_int (([1, 2, 3] : List Nat).take
          (worker_int_n ([1, 2, 3] : List Nat).length)) 4)[2]? ∧
      (worker_int_sweep [1, 2, 3])[1025]? = ([1, 2, 3] : List Nat)[1025]? :=
  ⟨(kernel_int_sweep_capped [1, 2, 3]).1,
    (kernel_int_sweep_capped [1, 2, 3]).2.1 2 (by decide),
    (kernel_int_sweep_capped [1, 2, 3]).2.2 1025 (by decide)⟩


/-- History-graph capacity `HISTORY_SAMPLES` (`src/hardstress.h`). -/
def HISTORY_SAMPLES : Nat := 240

/-- CPU-usage history capacity `CPU_HISTORY_SAMPLES`
(`src/hardstress.h`). -/
def CPU_HISTORY_SAMPLES : Nat := 60

/-- A circular history buffer as the code keeps one: capacity `len`,
write position `pos` (a C `int`, modelled as `ℤ` because the per-core
ring is initialised to the sentinel `-1`), fill count `filled`, and the
stored samples. -/
structure RingBuf (α : Type) where
  len : Nat
  pos : Int
  filled : Nat
  data : List α

/-- One write to a ring, as performed by the sampler
(`src/metrics.c`, lines 53–66 and 72–98): advance
`pos = (pos + 1) % len`, store the value at the new position, and
increment `filled` until it reaches `len`
(`if (filled < len) filled++`).  The per-thread family
(`src/metrics.c`, lines 101–110) advances its position and stores in
the same way but keeps no fill count; its `filled` field here models
nothing in the code. -/
def ring_write {α : Type} (r : RingBuf α) (v : α) : RingBuf α :=
  let p := (r.pos + 1) % (r.len : Int)
  { len := r.len
    pos := p
    filled := if r.filled < r.len then r.filled + 1 else r.filled
    data := r.data.set p.toNat v }

/-- A sequence of writes, oldest first. -/
def ring_write_many {α : Type} (r : RingBuf α) (vs : List α) : RingBuf α :=
  vs.foldl ring_write r

/-- The per-core usage ring at run start (`src/core.c`, lines 49–51):
`cpu_history_len = CPU_HISTORY_SAMPLES`, `cpu_history_pos = -1`,
`cpu_history_filled = 0`, rows zero-allocated.  The capacity is kept as
a parameter (it is `CPU_HISTORY_SAMPLES` in the program). -/
def cpu_ring_init (L : Nat) : RingBuf ℚ :=
  { len := L, pos := -1, filled := 0, data := List.replicate L 0 }

/-- The system temperature/average-usage ring at application start
(`src/main.c`, lines 63–65: `system_history_len = CPU_HISTORY_SAMPLES`;
position and fill count zero-initialised by the `calloc` of the
application context). -/
def system_ring_init (L : Nat) : RingBuf ℚ :=
  { len := L, pos := 0, filled := 0, data := List.replicate L 0 }

/-- The per-thread iteration ring at run start (`src/core.c`, line 88:
`history_pos = 0`; rows zero-allocated; no fill count exists for this
family). -/
def thread_ring_init (L : Nat) : RingBuf ℚ :=
  { len := L, pos := 0, filled := 0, data := List.replicate L 0 }

/-- The ring's write position after `m` writes of the value `v`. -/
def ring_pos_after {α : Type} (r : RingBuf α) (v : α) (m : Nat) : Int :=
  (ring_write_many r (List.replicate m v)).pos

lemma ring_write_many_len {α : Type} (vs : List α) :
    ∀ r : RingBuf α, (ring_write_many r vs).len = r.len := by
  induction vs with
  | nil => intro r; rfl
  | cons v vs ih => intro r; exact ih (ring_write r v)

lemma ring_write_many_pos {α : Type} (vs : List α) :
    ∀ r : RingBuf α, vs ≠ [] →
      (ring_write_many r vs).pos = (r.pos + vs.length) % (r.len : Int) := by
  induction vs with
  | nil => intro r h; exact absurd rfl h
  | cons v vs ih =>
    intro r _
    by_cases hvs : vs = []
    · subst hvs
      simp [ring_write_many, ring_write]
    · have := ih (ring_write r v) hvs
      simp only [ring_write_many, List.foldl_cons] at this ⊢
      rw [this]
      simp only [ring_write, List.length_cons]
      rw [Int.emod_add_emod]
      congr 1
      push_cast
      ring

lemma ring_write_many_filled {α : Type} (vs : List α) :
    ∀ r : RingBuf α, r.filled ≤ r.len →
      (ring_write_many r vs).filled = min (r.filled + vs.length) r.len := by
  induction vs with
  | nil =>
    intro r h
    simp [ring_write_many]
    omega
  | cons v vs ih =>
    intro r h
    have hw : (ring_write r v).filled = min (r.filled + 1) r.len := by
      simp only [ring_write]
      split <;> omega
    have hwl : (ring_write r v).len = r.len := rfl
    have := ih (ring_write r v) (by rw [hw, hwl]; omega)
    simp only [ring_write_many, List.foldl_cons] at this ⊢
    rw [this, hw, hwl, List.length_cons]
    omega

/-- C4 counterexample: the per-core usage ring's write position at run
start is the sentinel `-1` (`src/core.c`, line 50) — a reachable state
of a run (zero writes performed yet) at which the position lies outside
`[0, len)`, contradicting the claimed invariant for every reachable
state. -/
theorem ring_pos_sentinel_counterexample :
    (ring_write_many (cpu_ring_init 60) ([] : List ℚ)).pos = -1 ∧
      ¬ (0 ≤ (ring_write_many (cpu_ring_init 60) ([] : List ℚ)).pos) := by
  constructor
  · rfl
  · decide


/-- C4 (amended): for every capacity `L > 0` and every nonempty write
sequence, each History Store ring family satisfies the ring invariants:
the write position lies in `[0, L)` — the per-core ring from its first
write onward (its run-start position is the `-1` sentinel), the system
and per-thread rings already from their zero-initialised start —, the
fill counts never exceed `L`, and writes cycle through the slots with
period exactly `L`: write `m + L` lands on the slot of write `m`
(so once the fill count reaches `L`, every further write overwrites the
oldest slot), and no two of `L` consecutive writes share a slot. -/
theorem history_ring_invariants (L : Nat) (hL : 0 < L) (vs : List ℚ) (hvs : vs ≠ []) :
    (0 ≤ (ring_write_many (cpu_ring_init L) vs).pos ∧
      (ring_write_many (cpu_ring_init L) vs).pos < L) ∧
    (ring_write_many (cpu_ring_init L) vs).filled ≤ L ∧
    (0 ≤ (system_ring_init L).pos ∧ (system_ring_init L).pos < L ∧
      0 ≤ (ring_write_many (system_ring_init L) vs).pos ∧
      (ring_write_many (system_ring_init L) vs).pos < L) ∧
    (ring_write_many (system_ring_init L) vs).filled ≤ L ∧
    (0 ≤ (thread_ring_init L).pos ∧ (thread_ring_init L).pos < L ∧
      0 ≤ (ring_write_many (thread_ring_init L) vs).pos ∧
      (ring_write_many (thread_ring_init L) vs).pos < L) ∧
    (∀ (v : ℚ) (m : Nat),
      ring_pos_after (cpu_ring_init L) v ((m + 1) + L) =
        ring_pos_after (cpu_ring_init L) v (m + 1) ∧
      ring_pos_after (system_ring_init L) v (m + L) =
        ring_pos_after (system_ring_init L) v m) ∧
    (∀ (v : ℚ) (m1 m2 : Nat), m1 < m2 → m2 < m1 + L →
      ring_pos_after (cpu_ring_init L) v m1 ≠ ring_pos_after (cpu_ring_init L) v m2) := by
  have hL0 : ((L : Int) ≠ 0) := by exact_mod_cast Nat.pos_iff_ne_zero.mp hL
  have hLpos : (0 : Int) < L := by exact_mod_cast hL
  have hcpu := ring_write_many_pos vs (cpu_ring_init L) hvs
  have hsys := ring_write_many_pos vs (system_ring_init L) hvs
  have hthr := ring_write_many_pos vs (thread_ring_init L) hvs
  have hposcpu : ∀ (v : ℚ) (m : Nat),
      ring_pos_after (cpu_ring_init L) v (m + 1) = (m : Int) % L := by
    intro v m
    unfold ring_pos_after
    rw [ring_write_many_pos _ _ (by simp), List.length_replicate]
    show (-1 + ((m : Nat) + 1 : Nat)) % (L : Int) = (m : Int) % L
    congr 1
    push_cast
    ring
  have hpossys : ∀ (v : ℚ) (m : Nat),
      ring_pos_after (system_ring_init L) v m = (m : Int) % L := by
    intro v m
    cases m with
    | zero =>
      show (system_ring_init L).pos = (0 : Int) % L
      rw [Int.zero_emod]
      rfl
    | succ m =>
      unfold ring_pos_after
      rw [ring_write_many_pos _ _ (by simp), List.length_replicate]
      show (0 + ((m : Nat) + 1 : Nat)) % (L : Int) = ((m + 1 : Nat) : Int) % L
      congr 1
      push_cast
      ring
  refine ⟨?_, ?_, ?_, ?_, ?_, ?_, ?_⟩
  · rw [hcpu]
    exact ⟨Int.emod_nonneg _ hL0, Int.emod_lt_of_pos _ hLpos⟩
  · rw [ring_write_many_filled vs (cpu_ring_init L) (by simp [cpu_ring_init])]
    simp [cpu_ring_init]
  · refine ⟨le_refl 0, hLpos, ?_, ?_⟩
    · rw [hsys]; exact Int.emod_nonneg _ hL0
    · rw [hsys]; exact Int.emod_lt_of_pos _ hLpos
  · rw [ring_write_many_filled vs (system_ring_init L) (by simp [system_ring_init])]
    simp [system_ring_init]
  · refine ⟨le_refl 0, hLpos, ?_, ?_⟩
    · rw [hthr]; exact Int.emod_nonneg _ hL0
    · rw [hthr]; exact Int.emod_lt_of_pos _ hLpos
  · intro v m
    constructor
    · rw [show m + 1 + L = (m + L) + 1 by omega, hposcpu v (m + L), hposcpu v m]
      push_cast
      rw [show (m : Int) + L = (m : Int) + (L : Int) * 1 by ring, Int.add_mul_emod_self_left]
    · rw [hpossys v (m + L), hpossys v m]
      push_cast
      rw [show (m : Int) + L = (m : Int) + (L : Int) * 1 by ring, Int.add_mul_emod_self_left]
  · intro v m1 m2 h12 h2L
    cases m1 with
    | zero =>
      cases m2 with
      | zero => omega
      | succ m2 =>
        have h0 : ring_pos_after (cpu_ring_init L) v 0 = -1 := rfl
        rw [h0, hposcpu]
        have hnn : (0 : Int) ≤ (m2 : Int) % L := Int.emod_nonneg _ hL0
        omega
    | succ m1 =>
      cases m2 with
      | zero => omega
      | succ m2 =>
        rw [hposcpu, hposcpu]
        intro h
        have hdvd : (L : Int) ∣ (m2 : Int) - (m1 : Int) := Int.ModEq.dvd h
        have hlt : (0 : Int) < (m2 : Int) - (m1 : Int) := by
          have : m1 < m2 := by omega
          omega
        have hle := Int.le_of_dvd hlt hdvd
        have : m2 < m1 + L := by omega
        omega

theorem history_ring_invariants_witness :
    (0 : Nat) < 2 ∧ ([(1 : ℚ)] ≠ []) ∧
      (0 ≤ (ring_write_many (cpu_ring_init 2) [(1 : ℚ)]).pos ∧
        (ring_write_many (cpu_ring_init 2) [(1 : ℚ)]).pos < 2) :=
  ⟨by norm_num, by simp,
    (history_ring_invariants 2 (by norm_num) [(1 : ℚ)] (by simp)).1⟩

/-- C5 counterexample: the per-core usage ring starts at position `-1`
(`src/core.c`, line 50), so after exactly `L + k` writes with `L = 60`,
`k = 0` the write position is `59`, not `k mod L = 0` as claimed. -/
theorem ring_pos_arith_counterexample :
    (ring_write_many (cpu_ring_init 60) (List.replicate 60 (0 : ℚ))).pos = 59 ∧
      (ring_write_many (cpu_ring_init 60) (List.replicate 60 (0 : ℚ))).pos ≠
        ((0 : Nat) : Int) % 60 := by
  have hp : (ring_write_many (cpu_ring_init 60) (List.replicate 60 (0 : ℚ))).pos = 59 := by
    rw [ring_write_many_pos _ _ (by decide), List.length_replicate]
    decide
  exact ⟨hp, by rw [hp]; decide⟩

/-- C5 (amended): for every capacity `L > 0` and `k ≥ 0`, after exactly
`L + k` writes from the rings' run-start states the fill counts equal
`L` and the write position equals `k mod L` for the system and
per-thread rings (position initialised to 0); the per-core ring
(position initialised to the `-1` sentinel) instead ends at
`(L + k − 1) mod L`. -/
theorem ring_pos_after_L_plus_k (L k : Nat) (hL : 0 < L) (vs : List ℚ)
    (hlen : vs.length = L + k) :
    (ring_write_many (system_ring_init L) vs).pos = (k : Int) % L ∧
      (ring_write_many (system_ring_init L) vs).filled = L ∧
      (ring_write_many (thread_ring_init L) vs).pos = (k : Int) % L ∧
      (ring_write_many (cpu_ring_init L) vs).pos = ((L + k - 1 : Nat) : Int) % L ∧
      (ring_write_many (cpu_ring_init L) vs).filled = L := by
  have hvs : vs ≠ [] := by
    intro h
    rw [h] at hlen
    simp at hlen
    omega
  refine ⟨?_, ?_, ?_, ?_, ?_⟩
  · rw [ring_write_many_pos vs _ hvs, hlen]
    show (0 + ((L + k : Nat) : Int)) % (L : Int) = (k : Int) % L
    push_cast
    rw [show (0 : Int) + ((L : Int) + (k : Int)) = (k : Int) + (L : Int) * 1 by ring,
      Int.add_mul_emod_self_left]
  · rw [ring_write_many_filled vs _ (by simp [system_ring_init]), hlen]
    simp [system_ring_init]
  · rw [ring_write_many_pos vs _ hvs, hlen]
    show (0 + ((L + k : Nat) : Int)) % (L : Int) = (k : Int) % L
    push_cast
    rw [show (0 : Int) + ((L : Int) + (k : Int)) = (k : Int) + (L : Int) * 1 by ring,
      Int.add_mul_emod_self_left]
  · rw [ring_write_many_pos vs _ hvs, hlen]
    show (-1 + ((L + k : Nat) : Int)) % (L : Int) = ((L + k - 1 : Nat) : Int) % L
    congr 1
    have h1 : 1 ≤ L + k := by omega
    push_cast [Nat.cast_sub h1]
    ring
  · rw [ring_write_many_filled vs _ (by simp [cpu_ring_init]), hlen]
    simp [cpu_ring_init]

theorem ring_pos_after_L_plus_k_witness :
    (0 : Nat) < 3 ∧ (List.replicate 5 (0 : ℚ)).length = 3 + 2 ∧
      (ring_write_many (system_ring_init 3) (List.replicate 5 (0 : ℚ))).pos =
        ((2 : Nat) : Int) % 3 ∧
      (ring_write_many (cpu_ring_init 3) (List.replicate 5 (0 : ℚ))).pos =
        ((3 + 2 - 1 : Nat) : Int) % 3 :=
  ⟨by norm_num, by simp,
    (ring_pos_after_L_plus_k 3 2 (by norm_num) (List.replicate 5 0) (by simp)).1,
    (ring_pos_after_L_plus_k 3 2 (by norm_num) (List.replicate 5 0) (by simp)).2.2.2.1⟩


/-- The inner FMA loop of `kernel_fpu` (`src/core.c`):
`for i: C[i] = A[i]*B[i] + C[i]`, on the worker's single buffer with
the three spans at offsets `a0`, `b0`, `c0` (as carved in
`worker_main`, lines 221–229); `i` is the current element, `r` the
remaining count.  The element type is kept abstract in `*` and `+`
(C `float` arithmetic); the frame behaviour does not depend on it. -/
def fpu_loop {α : Type} [Mul α] [Add α] [Inhabited α] :
    List α → Nat → Nat → Nat → Nat → Nat → List α
  | buf, _, _, _, _, 0 => buf
  | buf, a0, b0, c0, i, r + 1 =>
    let v := buf.getD (a0 + i) default * buf.getD (b0 + i) default +
      buf.getD (c0 + i) default
    fpu_loop (buf.set (c0 + i) v) a0 b0 c0 (i + 1) r

/-- Embedding of `kernel_fpu` (`src/core.c`): `iters` sweeps of the FMA
loop over `n` elements. -/
def kernel_fpu {α : Type} [Mul α] [Add α] [Inhabited α] :
    List α → Nat → Nat → Nat → Nat → Nat → List α
  | buf, _, _, _, _, 0 => buf
  | buf, a0, b0, c0, n, k + 1 => kernel_fpu (fpu_loop buf a0 b0 c0 0 n) a0 b0 c0 n k

/-- The FPU span offsets `worker_main` carves (`src/core.c`, lines
221–229): `A` at element 0, `B` at `fpv`, `C` at `2*fpv`, where
`fpv = (buf_bytes/4)/3` is the float count per span. -/
def worker_fpu_offsets (buf_bytes : Nat) : Nat × Nat × Nat :=
  (0, buf_bytes / 4 / 3, 2 * (buf_bytes / 4 / 3))

lemma worker_fpu_offsets_disjoint (buf_bytes : Nat) :
    0 + buf_bytes / 4 / 3 ≤ buf_bytes / 4 / 3 ∧
      buf_bytes / 4 / 3 + buf_bytes / 4 / 3 ≤ 2 * (buf_bytes / 4 / 3) ∧
      2 * (buf_bytes / 4 / 3) + buf_bytes / 4 / 3 ≤ buf_bytes / 4 := by
  refine ⟨by omega, by omega, ?_⟩
  have := Nat.div_mul_le_self (buf_bytes / 4) 3
  omega

lemma fpu_loop_length {α : Type} [Mul α] [Add α] [Inhabited α] (r : Nat) :
    ∀ (buf : List α) (a0 b0 c0 i : Nat),
      (fpu_loop buf a0 b0 c0 i r).length = buf.length := by
  induction r with
  | zero => intro buf a0 b0 c0 i; rfl
  | succ r ih =>
    intro buf a0 b0 c0 i
    simp only [fpu_loop]
    rw [ih, List.length_set]

lemma fpu_loop_frame {α : Type} [Mul α] [Add α] [Inhabited α] (r : Nat) :
    ∀ (buf : List α) (a0 b0 c0 i p : Nat), p < c0 + i ∨ c0 + i + r ≤ p →
      (fpu_loop buf a0 b0 c0 i r)[p]? = buf[p]? := by
  induction r with
  | zero => intro buf a0 b0 c0 i p hp; rfl
  | succ r ih =>
    intro buf a0 b0 c0 i p hp
    simp only [fpu_loop]
    rw [ih _ _ _ _ _ _ (by omega)]
    exact List.getElem?_set_ne (by omega)

lemma fpu_loop_value {α : Type} [Mul α] [Add α] [Inhabited α] (r : Nat) :
    ∀ (buf : List α) (a0 b0 c0 i n : Nat),
      i + r ≤ n → c0 + n ≤ buf.length →
      (a0 + n ≤ c0 ∨ c0 + n ≤ a0) → (b0 + n ≤ c0 ∨ c0 + n ≤ b0) →
      ∀ j, i ≤ j → j < i + r →
        (fpu_loop buf a0 b0 c0 i r)[c0 + j]? =
          some (buf.getD (a0 + j) default * buf.getD (b0 + j) default +
            buf.getD (c0 + j) default) := by
  induction r with
  | zero => intro buf a0 b0 c0 i n h1 h2 h3 h4 j hj1 hj2; omega
  | succ r ih =>
    intro buf a0 b0 c0 i n h1 h2 h3 h4 j hj1 hj2
    simp only [fpu_loop]
    by_cases hji : j = i
    · subst hji
      rw [fpu_loop_frame r _ _ _ _ _ _ (by omega)]
      exact List.getElem?_set_self (by omega)
    · have e1 : (buf.set (c0 + i) (buf.getD (a0 + i) default * buf.getD (b0 + i) default +
          buf.getD (c0 + i) default)).getD (a0 + j) default = buf.getD (a0 + j) default := by
        rw [List.getD_eq_getElem?_getD, List.getD_eq_getElem?_getD,
          List.getElem?_set_ne (by omega)]
        rw [List.getD_eq_getElem?_getD]
      have e2 : (buf.set (c0 + i) (buf.getD (a0 + i) default * buf.getD (b0 + i) default +
          buf.getD (c0 + i) default)).getD (b0 + j) default = buf.getD (b0 + j) default := by
        rw [List.getD_eq_getElem?_getD, List.getD_eq_getElem?_getD,
          List.getElem?_set_ne (by omega)]
        rw [List.getD_eq_getElem?_getD]
      have e3 : (buf.set (c0 + i) (buf.getD (a0 + i) default * buf.getD (b0 + i) default +
          buf.getD (c0 + i) default)).getD (c0 + j) default = buf.getD (c0 + j) default := by
        rw [List.getD_eq_getElem?_getD, List.getD_eq_getElem?_getD,
          List.getElem?_set_ne (by omega)]
        rw [List.getD_eq_getElem?_getD]
      rw [ih _ a0 b0 c0 (i + 1) n (by omega) (by rw [List.length_set]; exact h2) h3 h4 j
        (by omega) (by omega), e1, e2, e3]

lemma kernel_fpu_length {α : Type} [Mul α] [Add α] [Inhabited α] (k : Nat) :
    ∀ (buf : List α) (a0 b0 c0 n : Nat),
      (kernel_fpu buf a0 b0 c0 n k).length = buf.length := by
  induction k with
  | zero => intro buf a0 b0 c0 n; rfl
  | succ k ih =>
    intro buf a0 b0 c0 n
    simp only [kernel_fpu]
    rw [ih, fpu_loop_length]

lemma kernel_fpu_frame_aux {α : Type} [Mul α] [Add α] [Inhabited α] (k : Nat) :
    ∀ (buf : List α) (a0 b0 c0 n p : Nat), p < c0 ∨ c0 + n ≤ p →
      (kernel_fpu buf a0 b0 c0 n k)[p]? = buf[p]? := by
  induction k with
  | zero => intro buf a0 b0 c0 n p hp; rfl
  | succ k ih =>
    intro buf a0 b0 c0 n p hp
    simp only [kernel_fpu]
    rw [ih _ _ _ _ _ _ hp]
    exact fpu_loop_frame n buf a0 b0 c0 0 p (by omega)

lemma kernel_fpu_value_aux {α : Type} [Mul α] [Add α] [Inhabited α] (k : Nat) :
    ∀ (buf : List α) (a0 b0 c0 n : Nat),
      c0 + n ≤ buf.length →
      (a0 + n ≤ c0 ∨ c0 + n ≤ a0) → (b0 + n ≤ c0 ∨ c0 + n ≤ b0) →
      ∀ j, j < n →
        (kernel_fpu buf a0 b0 c0 n k)[c0 + j]? =
          some ((fun c => buf.getD (a0 + j) default * buf.getD (b0 + j) default + c)^[k]
            (buf.getD (c0 + j) default)) := by
  induction k with
  | zero =>
    intro buf a0 b0 c0 n h2 h3 h4 j hj
    show buf[c0 + j]? = _
    rw [Function.iterate_zero_apply, List.getD_eq_getElem?_getD,
      List.getElem?_eq_getElem (by omega)]
    rfl
  | succ k ih =>
    intro buf a0 b0 c0 n h2 h3 h4 j hj
    simp only [kernel_fpu]
    have ea : (fpu_loop buf a0 b0 c0 0 n).getD (a0 + j) default =
        buf.getD (a0 + j) default := by
      rw [List.getD_eq_getElem?_getD, List.getD_eq_getElem?_getD,
        fpu_loop_frame n buf a0 b0 c0 0 (a0 + j) (by omega)]
    have eb : (fpu_loop buf a0 b0 c0 0 n).getD (b0 + j) default =
        buf.getD (b0 + j) default := by
      rw [List.getD_eq_getElem?_getD, List.getD_eq_getElem?_getD,
        fpu_loop_frame n buf a0 b0 c0 0 (b0 + j) (by omega)]
    have ec : (fpu_loop buf a0 b0 c0 0 n).getD (c0 + j) default =
        buf.getD (a0 + j) default * buf.getD (b0 + j) default +
          buf.getD (c0 + j) default := by
      rw [List.getD_eq_getElem?_getD,
        fpu_loop_value n buf a0 b0 c0 0 n (by omega) h2 h3 h4 j (by omega) (by omega)]
      rfl
    rw [ih _ a0 b0 c0 n (by rw [fpu_loop_length]; exact h2) h3 h4 j hj, ea, eb, ec,
      Function.iterate_succ_apply]

/-- C10: the FPU kernel writes only the C span.  For every element type
(the C `float` arithmetic abstracted to any `*`/`+`), every buffer,
every iteration count and pairwise-disjoint in-bounds spans `A`, `B`,
`C` of length `n` at offsets `a0`, `b0`, `c0`, after
`kernel_fpu` every position outside `C`'s span — in particular all of
`A` and `B` — is unchanged, and each `C[j]` becomes the result of
`iters` fused multiply-add steps `A[j]*B[j] + C[j]` on the original
values. -/
theorem kernel_fpu_writes_only_C {α : Type} [Mul α] [Add α] [Inhabited α]
    (buf : List α) (a0 b0 c0 n iters : Nat)
    (ha : a0 + n ≤ buf.length) (hb : b0 + n ≤ buf.length) (hc : c0 + n ≤ buf.length)
    (hab : a0 + n ≤ b0 ∨ b0 + n ≤ a0)
    (hac : a0 + n ≤ c0 ∨ c0 + n ≤ a0)
    (hbc : b0 + n ≤ c0 ∨ c0 + n ≤ b0) :
    (∀ p, p < c0 ∨ c0 + n ≤ p → (kernel_fpu buf a0 b0 c0 n iters)[p]? = buf[p]?) ∧
      (∀ j, j < n → (kernel_fpu buf a0 b0 c0 n iters)[a0 + j]? = buf[a0 + j]?) ∧
      (∀ j, j < n → (kernel_fpu buf a0 b0 c0 n iters)[b0 + j]? = buf[b0 + j]?) ∧
      (∀ j, j < n →
        (kernel_fpu buf a0 b0 c0 n iters)[c0 + j]? =
          some ((fun c => buf.getD (a0 + j) default * buf.getD (b0 + j) default + c)^[iters]
            (buf.getD (c0 + j) default))) := by
  refine ⟨?_, ?_, ?_, ?_⟩
  · intro p hp
    exact kernel_fpu_frame_aux iters buf a0 b0 c0 n p hp
  · intro j hj
    exact kernel_fpu_frame_aux iters buf a0 b0 c0 n _ (by omega)
  · intro j hj
    exact kernel_fpu_frame_aux iters buf a0 b0 c0 n _ (by omega)
  · intro j hj
    exact kernel_fpu_value_aux iters buf a0 b0 c0 n hc hac hbc j hj

theorem kernel_fpu_writes_only_C_witness :
    (kernel_fpu [(1 : ℚ), 2, 3, 4, 5, 6] 0 2 4 2 3)[0 + 0]? =
        ([(1 : ℚ), 2, 3, 4, 5, 6])[0 + 0]? ∧
      (kernel_fpu [(1 : ℚ), 2, 3, 4, 5, 6] 0 2 4 2 3)[4 + 0]? =
        some ((fun c => ([(1 : ℚ), 2, 3, 4, 5, 6].getD (0 + 0) default) *
          ([(1 : ℚ), 2, 3, 4, 5, 6].getD (2 + 0) default) + c)^[3]
          ([(1 : ℚ), 2, 3, 4, 5, 6].getD (4 + 0) default)) :=
  ⟨(kernel_fpu_writes_only_C [(1 : ℚ), 2, 3, 4, 5, 6] 0 2 4 2 3 (by decide) (by decide)
      (by decide) (by omega) (by omega) (by omega)).2.1 0 (by omega),
    (kernel_fpu_writes_only_C [(1 : ℚ), 2, 3, 4, 5, 6] 0 2 4 2 3 (by decide) (by decide)
      (by decide) (by omega) (by omega) (by omega)).2.2.2 0 (by omega)⟩


/-- Worker status tags (`worker_status_t`, `src/hardstress.h`). -/
inductive worker_status_t : Type
  | WORKER_OK : worker_status_t
  | WORKER_ALLOC_FAIL : worker_status_t
deriving DecidableEq

/-- The worker's configuration, read from the application context
(`worker_t` and the kernel-enable flags of `AppContext`). -/
structure WorkerCfg where
  tid : Nat
  buf_bytes : Nat
  fpu_en : Bool
  int_en : Bool
  stream_en : Bool
  ptr_en : Bool

/-- The worker's environment: whether its two `malloc` calls succeed,
and how many sweeps of the run loop execute before the worker observes
its run flag or the session run flag cleared (the loop count stands in
for the concurrent flag schedule). -/
structure WorkerEnv where
  buf_alloc_ok : Bool
  idx_alloc_ok : Bool
  loops : Nat

/-- The observable outcome of one `worker_main` run: final status, how
much the worker added to the session error counter and to the
iteration counters, how many kernel invocations it performed, and
whether its buffer / index array are still allocated on return. -/
structure WorkerRes where
  status : worker_status_t
  errors_added : Nat
  iters_added : Nat
  kernel_calls : Nat
  buf_live : Bool
  idx_live : Bool

/-- Kernel invocations in one sweep of the run loop (`src/core.c`,
lines 268–274): all kernels are guarded by `w->buf`; the FPU kernel
additionally by `floats_per_vec > 0` (with `B`, `C` set only in that
case) and the pointer chase by `w->idx`. -/
def worker_kernels_per_sweep (cfg : WorkerCfg) (has_idx : Bool) : Nat :=
  if 0 < cfg.buf_bytes then
    (if cfg.fpu_en ∧ 0 < cfg.buf_bytes / 4 / 3 then 1 else 0) +
      (if cfg.int_en then 1 else 0) +
      (if cfg.stream_en then 1 else 0) +
      (if cfg.ptr_en ∧ has_idx then 1 else 0)
  else 0

/-- Control-flow embedding of `worker_main` (`src/core.c`,
lines 205–289) at the level of statuses, counters and resources: set
status `WORKER_OK`; allocate the buffer if `buf_bytes > 0`, and on
failure count one error, set `WORKER_ALLOC_FAIL` and return before the
run loop; initialise the buffer (contents modelled separately by the
kernel functions); if the pointer-chase kernel is enabled and the
buffer exists and `idx_len = buf_bytes/4 > 0`, allocate the index
array, and on failure count one error, set `WORKER_ALLOC_FAIL`, free
the buffer and return before the run loop; otherwise run `loops`
sweeps, each invoking the enabled kernels and incrementing the
iteration counters, then free the index array and the buffer. -/
def worker_main (cfg : WorkerCfg) (env : WorkerEnv) : WorkerRes :=
  if 0 < cfg.buf_bytes ∧ env.buf_alloc_ok = false then
    { status := .WORKER_ALLOC_FAIL, errors_added := 1, iters_added := 0,
      kernel_calls := 0, buf_live := false, idx_live := false }
  else if cfg.ptr_en ∧ 0 < cfg.buf_bytes ∧ 0 < cfg.buf_bytes / 4 ∧
      env.idx_alloc_ok = false then
    { status := .WORKER_ALLOC_FAIL, errors_added := 1, iters_added := 0,
      kernel_calls := 0, buf_live := false, idx_live := false }
  else
    let has_idx := cfg.ptr_en && decide (0 < cfg.buf_bytes) && decide (0 < cfg.buf_bytes / 4)
    { status := .WORKER_OK, errors_added := 0, iters_added := env.loops,
      kernel_calls := env.loops * worker_kernels_per_sweep cfg has_idx,
      buf_live := false, idx_live := false }


/-- The heap resources `controller_thread_func` allocates
(`src/core.c`, lines 42–113). -/
inductive Res : Type
  | cpuUsage : Res
  | cpuHistArr : Res
  | cpuHistRow : Nat → Res
  | prevSamp : Res
  | currSamp : Res
  | threadHistArr : Res
  | threadHistRow : Nat → Res
  | workersArr : Res
  | workerThreadsArr : Res
deriving DecidableEq

/-- The threads `controller_thread_func` starts. -/
inductive Th : Type
  | sampler : Th
  | worker : Nat → Th
deriving DecidableEq

/-- The failure oracle for one controller run: the detected CPU count
and which allocations / thread creations succeed. -/
structure CtrlEnv where
  cpu_count : Nat
  ok_cpuUsage : Bool
  ok_cpuHistArr : Bool
  ok_cpuHistRow : Nat → Bool
  ok_prevSamp : Bool
  ok_currSamp : Bool
  ok_threadHistArr : Bool
  ok_threadHistRow : Nat → Bool
  ok_workersArr : Bool
  ok_workerThreadsArr : Bool
  ok_samplerStart : Bool
  ok_workerStart : Nat → Bool

/-- Ground-truth machine state seen by the controller: which resources
are live (allocated and not freed — the code also nulls the pointers it
frees, so `live = false` covers both), which threads have been started,
stopped (their run flag cleared) and joined, and the error counter. -/
structure CtrlSt where
  live : Res → Bool
  started : Th → Bool
  stopped : Th → Bool
  joined : Th → Bool
  errors : Nat

/-- The state at controller entry: nothing allocated or started. -/
def ctrl_st0 : CtrlSt :=
  { live := fun _ => false, started := fun _ => false, stopped := fun _ => false,
    joined := fun _ => false, errors := 0 }

/-- A successful allocation. -/
def alloc (st : CtrlSt) (r : Res) : CtrlSt :=
  { st with live := Function.update st.live r true }

/-- A `free` (of a possibly already-`NULL` pointer, as in the code's
cleanup). -/
def dealloc (st : CtrlSt) (r : Res) : CtrlSt :=
  { st with live := Function.update st.live r false }

/-- The row-allocation loops (`for c: cpu_history[c] = calloc…` and
`for t: thread_history[t] = calloc…`): allocate rows `c, c+1, …` while
`k` remain, stopping early at the first failure.  Returns the state,
the next index (= the number of rows allocated when starting from 0,
mirroring `thread_history_allocated`), and whether the loop finished. -/
def alloc_rows (tag : Nat → Res) (ok : Nat → Bool) : Nat → Nat → CtrlSt → CtrlSt × Nat × Bool
  | c, 0, st => (st, c, true)
  | c, k + 1, st =>
    if ok c then alloc_rows tag ok (c + 1) k (alloc st (tag c))
    else (st, c, false)

/-- The row-freeing loops of the cleanup section
(`for i < count: free(rows[i])`). -/
def free_rows (tag : Nat → Res) : Nat → CtrlSt → CtrlSt
  | 0, st => st
  | k + 1, st => free_rows tag k (dealloc st (tag k))

/-- The worker-start loop (`src/core.c`, lines 121–136): create worker
threads `i, i+1, …`; at the first creation failure increment the error
counter and stop (the code then jumps to cleanup).  Returns the state,
the number of workers started, and whether the loop finished. -/
def start_workers (ok : Nat → Bool) : Nat → Nat → CtrlSt → CtrlSt × Nat × Bool
  | i, 0, st => (st, i, true)
  | i, k + 1, st =>
    if ok i then
      start_workers ok (i + 1) k
        { st with started := Function.update st.started (Th.worker i) true }
    else ({ st with errors := st.errors + 1 }, i, false)

/-- The outcome of the startup sequence, mirroring the local variables
of `controller_thread_func` at the `cleanup` label: `sampler_started`,
`workers_started`, `thread_history_allocated`, and whether a failure
sent control to `cleanup` before the poll loop. -/
structure StartRes where
  st : CtrlSt
  sampler_started : Bool
  workers_started : Nat
  th_alloc : Nat
  failed : Bool

/-- The startup sequence of `controller_thread_func` (`src/core.c`,
lines 42–136), in code order: CPU-usage buffer, per-core history array
and rows, the two sampling buffers (both allocated, then checked
together), the per-thread history array and rows (counting
`thread_history_allocated`), the worker and thread-handle arrays (both
allocated, then checked together), the sampler thread, and the worker
threads.  Any failure returns immediately with `failed = true`
(the `goto cleanup`). -/
def controller_startup (env : CtrlEnv) (threads : Nat) : StartRes :=
  if env.ok_cpuUsage = false then ⟨ctrl_st0, false, 0, 0, true⟩ else
  let st1 := alloc ctrl_st0 .cpuUsage
  if env.ok_cpuHistArr = false then ⟨st1, false, 0, 0, true⟩ else
  let st2 := alloc st1 .cpuHistArr
  let rows1 := alloc_rows Res.cpuHistRow env.ok_cpuHistRow 0 env.cpu_count st2
  if rows1.2.2 = false then ⟨rows1.1, false, 0, 0, true⟩ else
  let st3 := rows1.1
  let st4 := if env.ok_prevSamp then alloc st3 .prevSamp else st3
  let st5 := if env.ok_currSamp then alloc st4 .currSamp else st4
  if (env.ok_prevSamp && env.ok_currSamp) = false then ⟨st5, false, 0, 0, true⟩ else
  if env.ok_threadHistArr = false then ⟨st5, false, 0, 0, true⟩ else
  let st6 := alloc st5 .threadHistArr
  let rows2 := alloc_rows Res.threadHistRow env.ok_threadHistRow 0 threads st6
  if rows2.2.2 = false then ⟨rows2.1, false, 0, rows2.2.1, true⟩ else
  let st7 := rows2.1
  let tha := rows2.2.1
  let st8 := if env.ok_workersArr then alloc st7 .workersArr else st7
  let st9 := if env.ok_workerThreadsArr then alloc st8 .workerThreadsArr else st8
  if (env.ok_workersArr && env.ok_workerThreadsArr) = false then ⟨st9, false, 0, tha, true⟩ else
  if env.ok_samplerStart = false then ⟨st9, false, 0, tha, true⟩ else
  let st10 := { st9 with started := Function.update st9.started Th.sampler true }
  let sw := start_workers env.ok_workerStart 0 threads st10
  ⟨sw.1, true, sw.2.1, tha, !sw.2.2⟩

/-- The stop loop of the cleanup section (`for i < workers_started:
atomic_store(&workers[i].running, 0)`). -/
def stop_workers : Nat → CtrlSt → CtrlSt
  | 0, st => st
  | k + 1, st =>
    stop_workers k { st with stopped := Function.update st.stopped (Th.worker k) true }

/-- The join loop of the cleanup section (`for i < workers_started:
thread_join(worker_threads[i])`). -/
def join_workers : Nat → CtrlSt → CtrlSt
  | 0, st => st
  | k + 1, st =>
    join_workers k { st with joined := Function.update st.joined (Th.worker k) true }

/-- The cleanup section of `controller_thread_func` (`src/core.c`,
lines 148–188), in code order: clear the run flags of the started
workers (guarded by `app->workers`), join them (guarded by
`app->worker_threads`), join the sampler if it was started, free the
per-thread history rows (`thread_history_allocated` of them) and array
(guarded by `app->thread_history`), free the worker and thread-handle
arrays, free the per-core history rows (`cpu_count` of them, `NULL`
rows tolerated) and array (guarded by `app->cpu_history`), and free
the CPU-usage and sampling buffers. -/
def controller_cleanup (env : CtrlEnv) (r : StartRes) : CtrlSt :=
  let s1 := if r.st.live Res.workersArr then stop_workers r.workers_started r.st else r.st
  let s2 := if s1.live Res.workerThreadsArr then join_workers r.workers_started s1 else s1
  let s3 := if r.sampler_started then
    { s2 with joined := Function.update s2.joined Th.sampler true } else s2
  let s4 := if s3.live Res.threadHistArr then
    dealloc (free_rows Res.threadHistRow r.th_alloc s3) Res.threadHistArr else s3
  let s5 := dealloc s4 Res.workersArr
  let s6 := dealloc s5 Res.workerThreadsArr
  let s7 := if s6.live Res.cpuHistArr then
    dealloc (free_rows Res.cpuHistRow env.cpu_count s6) Res.cpuHistArr else s6
  let s8 := dealloc s7 Res.cpuUsage
  dealloc (dealloc s8 Res.prevSamp) Res.currSamp

/-- The whole controller life cycle at the resource level
(`controller_thread_func`, `src/core.c`): run the startup sequence,
then the cleanup section (which runs on both the failure path and the
normal end-of-run path); the second component records whether the
steady running phase (the poll loop, lines 138–146) was entered, which
happens exactly when startup did not fail. -/
def controller_thread_func (env : CtrlEnv) (threads : Nat) : CtrlSt × Bool :=
  let r := controller_startup env threads
  (controller_cleanup env r, !r.failed)


lemma alloc_live_eq (st : CtrlSt) (r q : Res) :
    (alloc st r).live q = if q = r then true else st.live q := by
  simp [alloc, Function.update_apply]

lemma dealloc_live_eq (st : CtrlSt) (r q : Res) :
    (dealloc st r).live q = if q = r then false else st.live q := by
  simp [dealloc, Function.update_apply]

lemma alloc_rows_fields (tag : Nat → Res) (ok : Nat → Bool) : ∀ (k c : Nat) (st : CtrlSt),
    (alloc_rows tag ok c k st).1.started = st.started ∧
      (alloc_rows tag ok c k st).1.stopped = st.stopped ∧
      (alloc_rows tag ok c k st).1.joined = st.joined ∧
      (alloc_rows tag ok c k st).1.errors = st.errors := by
  intro k
  induction k with
  | zero => intro c st; exact ⟨rfl, rfl, rfl, rfl⟩
  | succ k ih =>
    intro c st
    simp only [alloc_rows]
    split
    · exact ih (c + 1) (alloc st (tag c))
    · exact ⟨rfl, rfl, rfl, rfl⟩

lemma alloc_rows_live_other (tag : Nat → Res) (ok : Nat → Bool) :
    ∀ (k c : Nat) (st : CtrlSt) (r : Res), (∀ i, r ≠ tag i) →
      (alloc_rows tag ok c k st).1.live r = st.live r := by
  intro k
  induction k with
  | zero => intro c st r _; rfl
  | succ k ih =>
    intro c st r hr
    simp only [alloc_rows]
    split
    · rw [ih (c + 1) (alloc st (tag c)) r hr, alloc_live_eq, if_neg (hr c)]
    · rfl

lemma alloc_rows_count_ge (tag : Nat → Res) (ok : Nat → Bool) : ∀ (k c : Nat) (st : CtrlSt),
    c ≤ (alloc_rows tag ok c k st).2.1 := by
  intro k
  induction k with
  | zero => intro c st; exact le_refl c
  | succ k ih =>
    intro c st
    simp only [alloc_rows]
    split
    · exact le_trans (Nat.le_succ c) (ih (c + 1) (alloc st (tag c)))
    · exact le_refl c

lemma alloc_rows_count_le (tag : Nat → Res) (ok : Nat → Bool) : ∀ (k c : Nat) (st : CtrlSt),
    (alloc_rows tag ok c k st).2.1 ≤ c + k := by
  intro k
  induction k with
  | zero => intro c st; exact Nat.le_refl c
  | succ k ih =>
    intro c st
    simp only [alloc_rows]
    split
    · exact le_trans (ih (c + 1) (alloc st (tag c))) (by omega)
    · exact Nat.le_add_right c (k + 1)

lemma alloc_rows_live_row (tag : Nat → Res) (ok : Nat → Bool)
    (hinj : ∀ m n, tag m = tag n → m = n) :
    ∀ (k c : Nat) (st : CtrlSt) (i : Nat),
      (alloc_rows tag ok c k st).1.live (tag i) = true →
      st.live (tag i) = true ∨ i < (alloc_rows tag ok c k st).2.1 := by
  intro k
  induction k with
  | zero => intro c st i h; exact Or.inl h
  | succ k ih =>
    intro c st i h
    simp only [alloc_rows] at h ⊢
    split at h
    · next hok =>
      rw [if_pos hok]
      rcases ih (c + 1) (alloc st (tag c)) i h with h2 | h2
      · rw [alloc_live_eq] at h2
        by_cases hic : tag i = tag c
        · have : i = c := hinj i c hic
          subst this
          right
          exact lt_of_lt_of_le (Nat.lt_succ_self i) (alloc_rows_count_ge tag ok k (i + 1) _)
        · rw [if_neg hic] at h2
          exact Or.inl h2
      · exact Or.inr h2
    · next hok =>
      rw [if_neg hok]
      exact Or.inl h

lemma start_workers_live (ok : Nat → Bool) : ∀ (k i : Nat) (st : CtrlSt),
    (start_workers ok i k st).1.live = st.live := by
  intro k
  induction k with
  | zero => intro i st; rfl
  | succ k ih =>
    intro i st
    simp only [start_workers]
    split
    · exact ih (i + 1) _
    · rfl

lemma start_workers_stopped (ok : Nat → Bool) : ∀ (k i : Nat) (st : CtrlSt),
    (start_workers ok i k st).1.stopped = st.stopped := by
  intro k
  induction k with
  | zero => intro i st; rfl
  | succ k ih =>
    intro i st
    simp only [start_workers]
    split
    · exact ih (i + 1) _
    · rfl

lemma start_workers_joined (ok : Nat → Bool) : ∀ (k i : Nat) (st : CtrlSt),
    (start_workers ok i k st).1.joined = st.joined := by
  intro k
  induction k with
  | zero => intro i st; rfl
  | succ k ih =>
    intro i st
    simp only [start_workers]
    split
    · exact ih (i + 1) _
    · rfl

lemma start_workers_count_ge (ok : Nat → Bool) : ∀ (k i : Nat) (st : CtrlSt),
    i ≤ (start_workers ok i k st).2.1 := by
  intro k
  induction k with
  | zero => intro i st; exact le_refl i
  | succ k ih =>
    intro i st
    simp only [start_workers]
    split
    · exact le_trans (Nat.le_succ i) (ih (i + 1) _)
    · exact le_refl i

lemma start_workers_started_sampler (ok : Nat → Bool) : ∀ (k i : Nat) (st : CtrlSt),
    (start_workers ok i k st).1.started Th.sampler = st.started Th.sampler := by
  intro k
  induction k with
  | zero => intro i st; rfl
  | succ k ih =>
    intro i st
    simp only [start_workers]
    split
    · rw [ih (i + 1) _]
      simp [Function.update_apply]
    · rfl

lemma start_workers_started_worker (ok : Nat → Bool) : ∀ (k i : Nat) (st : CtrlSt) (j : Nat),
    (start_workers ok i k st).1.started (Th.worker j) = true →
      st.started (Th.worker j) = true ∨ j < (start_workers ok i k st).2.1 := by
  intro k
  induction k with
  | zero => intro i st j h; exact Or.inl h
  | succ k ih =>
    intro i st j h
    simp only [start_workers] at h ⊢
    split at h
    · next hok =>
      rw [if_pos hok]
      rcases ih (i + 1) _ j h with h2 | h2
      · simp only [Function.update_apply] at h2
        by_cases hji : Th.worker j = Th.worker i
        · have : j = i := by injection hji
          subst this
          right
          exact lt_of_lt_of_le (Nat.lt_succ_self j) (start_workers_count_ge ok k (j + 1) _)
        · rw [if_neg hji] at h2
          exact Or.inl h2
      · exact Or.inr h2
    · next hok =>
      rw [if_neg hok]
      exact Or.inl h

lemma stop_workers_live : ∀ (k : Nat) (st : CtrlSt), (stop_workers k st).live = st.live := by
  intro k
  induction k with
  | zero => intro st; rfl
  | succ k ih => intro st; exact ih _

lemma stop_workers_started : ∀ (k : Nat) (st : CtrlSt),
    (stop_workers k st).started = st.started := by
  intro k
  induction k with
  | zero => intro st; rfl
  | succ k ih => intro st; exact ih _

lemma stop_workers_joined : ∀ (k : Nat) (st : CtrlSt),
    (stop_workers k st).joined = st.joined := by
  intro k
  induction k with
  | zero => intro st; rfl
  | succ k ih => intro st; exact ih _

lemma stop_workers_stopped_mono : ∀ (k : Nat) (st : CtrlSt) (t : Th),
    st.stopped t = true → (stop_workers k st).stopped t = true := by
  intro k
  induction k with
  | zero => intro st t h; exact h
  | succ k ih =>
    intro st t h
    apply ih
    show Function.update st.stopped (Th.worker k) true t = true
    rw [Function.update_apply]
    split
    · rfl
    · exact h

lemma stop_workers_stopped_lt : ∀ (k : Nat) (st : CtrlSt) (i : Nat), i < k →
    (stop_workers k st).stopped (Th.worker i) = true := by
  intro k
  induction k with
  | zero => intro st i h; omega
  | succ k ih =>
    intro st i h
    by_cases hik : i < k
    · exact ih _ i hik
    · have : i = k := by omega
      subst this
      show (stop_workers i { st with stopped := Function.update st.stopped (Th.worker i) true
        }).stopped (Th.worker i) = true
      apply stop_workers_stopped_mono
      show Function.update st.stopped (Th.worker i) true (Th.worker i) = true
      simp [Function.update_apply]

lemma join_workers_live : ∀ (k : Nat) (st : CtrlSt), (join_workers k st).live = st.live := by
  intro k
  induction k with
  | zero => intro st; rfl
  | succ k ih => intro st; exact ih _

lemma join_workers_started : ∀ (k : Nat) (st : CtrlSt),
    (join_workers k st).started = st.started := by
  intro k
  induction k with
  | zero => intro st; rfl
  | succ k ih => intro st; exact ih _

lemma join_workers_stopped : ∀ (k : Nat) (st : CtrlSt),
    (join_workers k st).stopped = st.stopped := by
  intro k
  induction k with
  | zero => intro st; rfl
  | succ k ih => intro st; exact ih _

lemma join_workers_joined_mono : ∀ (k : Nat) (st : CtrlSt) (t : Th),
    st.joined t = true → (join_workers k st).joined t = true := by
  intro k
  induction k with
  | zero => intro st t h; exact h
  | succ k ih =>
    intro st t h
    apply ih
    show Function.update st.joined (Th.worker k) true t = true
    rw [Function.update_apply]
    split
    · rfl
    · exact h

lemma join_workers_joined_lt : ∀ (k : Nat) (st : CtrlSt) (i : Nat), i < k →
    (join_workers k st).joined (Th.worker i) = true := by
  intro k
  induction k with
  | zero => intro st i h; omega
  | succ k ih =>
    intro st i h
    by_cases hik : i < k
    · exact ih _ i hik
    · have : i = k := by omega
      subst this
      show (join_workers i { st with joined := Function.update st.joined (Th.worker i) true
        }).joined (Th.worker i) = true
      apply join_workers_joined_mono
      show Function.update st.joined (Th.worker i) true (Th.worker i) = true
      simp [Function.update_apply]

lemma free_rows_fields (tag : Nat → Res) : ∀ (k : Nat) (st : CtrlSt),
    (free_rows tag k st).started = st.started ∧
      (free_rows tag k st).stopped = st.stopped ∧
      (free_rows tag k st).joined = st.joined := by
  intro k
  induction k with
  | zero => intro st; exact ⟨rfl, rfl, rfl⟩
  | succ k ih => intro st; exact ih _

lemma free_rows_live_other (tag : Nat → Res) : ∀ (k : Nat) (st : CtrlSt) (r : Res),
    (∀ i, r ≠ tag i) → (free_rows tag k st).live r = st.live r := by
  intro k
  induction k with
  | zero => intro st r _; rfl
  | succ k ih =>
    intro st r hr
    simp only [free_rows]
    rw [ih _ r hr, dealloc_live_eq, if_neg (hr k)]

lemma free_rows_live_mono (tag : Nat → Res) : ∀ (k : Nat) (st : CtrlSt) (r : Res),
    st.live r = false → (free_rows tag k st).live r = false := by
  intro k
  induction k with
  | zero => intro st r h; exact h
  | succ k ih =>
    intro st r h
    apply ih
    rw [dealloc_live_eq]
    split
    · rfl
    · exact h

lemma free_rows_live_lt (tag : Nat → Res) : ∀ (k : Nat) (st : CtrlSt) (i : Nat), i < k →
    (free_rows tag k st).live (tag i) = false := by
  intro k
  induction k with
  | zero => intro st i h; omega
  | succ k ih =>
    intro st i h
    by_cases hik : i < k
    · exact ih _ i hik
    · have : i = k := by omega
      subst this
      show (free_rows tag i (dealloc st (tag i))).live (tag i) = false
      apply free_rows_live_mono
      rw [dealloc_live_eq, if_pos rfl]


lemma live_ite_alloc (c : Prop) [Decidable c] (st : CtrlSt) (r q : Res) (h : q ≠ r) :
    (if c then alloc st r else st).live q = st.live q := by
  split
  · rw [alloc_live_eq, if_neg h]
  · rfl

lemma started_ite_alloc (c : Prop) [Decidable c] (st : CtrlSt) (r : Res) :
    (if c then alloc st r else st).started = st.started := by
  split <;> rfl

/-- The invariant relating the startup outcome's ground-truth state to
the controller's bookkeeping variables: live history rows are exactly
the ones the cleanup loops will free, started workers are counted by
`workers_started`, the sampler flag covers the sampler thread, and once
any worker has started the two worker arrays are live. -/
structure CtrlInv (env : CtrlEnv) (r : StartRes) : Prop where
  cpu_row_lt : ∀ c, r.st.live (Res.cpuHistRow c) = true → c < env.cpu_count
  cpu_row_arr : ∀ c, r.st.live (Res.cpuHistRow c) = true → r.st.live Res.cpuHistArr = true
  th_row_lt : ∀ t, r.st.live (Res.threadHistRow t) = true → t < r.th_alloc
  th_row_arr : ∀ t, r.st.live (Res.threadHistRow t) = true → r.st.live Res.threadHistArr = true
  worker_lt : ∀ i, r.st.started (Th.worker i) = true → i < r.workers_started
  sampler_flag : r.st.started Th.sampler = true → r.sampler_started = true
  arrs_live : 0 < r.workers_started →
    r.st.live Res.workersArr = true ∧ r.st.live Res.workerThreadsArr = true


lemma controller_startup_inv (env : CtrlEnv) (threads : Nat) :
    CtrlInv env (controller_startup env threads) := by
  have hinj_cpu : ∀ m n, Res.cpuHistRow m = Res.cpuHistRow n → m = n := by
    intro m n h; injection h
  have hinj_th : ∀ m n, Res.threadHistRow m = Res.threadHistRow n → m = n := by
    intro m n h; injection h
  simp only [controller_startup]
  by_cases h1 : env.ok_cpuUsage = false
  · rw [if_pos h1]
    exact ⟨fun c h => by simp [ctrl_st0] at h, fun c h => by simp [ctrl_st0] at h,
      fun t h => by simp [ctrl_st0] at h, fun t h => by simp [ctrl_st0] at h,
      fun i h => by simp [ctrl_st0] at h, fun h => by simp [ctrl_st0] at h,
      fun h => by simp at h⟩
  rw [if_neg h1]
  by_cases h2 : env.ok_cpuHistArr = false
  · rw [if_pos h2]
    refine ⟨?_, ?_, ?_, ?_, ?_, ?_, fun h => by simp at h⟩
    · intro c h
      rw [show (⟨alloc ctrl_st0 Res.cpuUsage, false, 0, 0, true⟩ : StartRes).st =
        alloc ctrl_st0 Res.cpuUsage from rfl, alloc_live_eq, if_neg (by simp)] at h
      simp [ctrl_st0] at h
    · intro c h
      rw [show (⟨alloc ctrl_st0 Res.cpuUsage, false, 0, 0, true⟩ : StartRes).st =
        alloc ctrl_st0 Res.cpuUsage from rfl, alloc_live_eq, if_neg (by simp)] at h
      simp [ctrl_st0] at h
    · intro t h
      rw [show (⟨alloc ctrl_st0 Res.cpuUsage, false, 0, 0, true⟩ : StartRes).st =
        alloc ctrl_st0 Res.cpuUsage from rfl, alloc_live_eq, if_neg (by simp)] at h
      simp [ctrl_st0] at h
    · intro t h
      rw [show (⟨alloc ctrl_st0 Res.cpuUsage, false, 0, 0, true⟩ : StartRes).st =
        alloc ctrl_st0 Res.cpuUsage from rfl, alloc_live_eq, if_neg (by simp)] at h
      simp [ctrl_st0] at h
    · intro i h
      simp [alloc, ctrl_st0] at h
    · intro h
      simp [alloc, ctrl_st0] at h
  rw [if_neg h2]
  set ST2 := alloc (alloc ctrl_st0 Res.cpuUsage) Res.cpuHistArr with hST2
  set R1 := alloc_rows Res.cpuHistRow env.ok_cpuHistRow 0 env.cpu_count ST2 with hR1
  have hcpu_lt : ∀ c, R1.1.live (Res.cpuHistRow c) = true → c < env.cpu_count := by
    intro c h
    rcases alloc_rows_live_row Res.cpuHistRow env.ok_cpuHistRow hinj_cpu
      env.cpu_count 0 ST2 c h with h2 | h2
    · rw [hST2, alloc_live_eq, if_neg (by simp), alloc_live_eq, if_neg (by simp)] at h2
      simp [ctrl_st0] at h2
    · have := alloc_rows_count_le Res.cpuHistRow env.ok_cpuHistRow env.cpu_count 0 ST2
      omega
  have hcpu_arr : R1.1.live Res.cpuHistArr = true := by
    rw [hR1, alloc_rows_live_other Res.cpuHistRow env.ok_cpuHistRow env.cpu_count 0 ST2
      Res.cpuHistArr (by intro i; simp), hST2, alloc_live_eq, if_pos rfl]
  have hR1_other : ∀ q : Res, (∀ i, q ≠ Res.cpuHistRow i) → R1.1.live q = ST2.live q :=
    fun q hq => alloc_rows_live_other Res.cpuHistRow env.ok_cpuHistRow env.cpu_count 0 ST2 q hq
  have hST2_false : ∀ q : Res, q ≠ Res.cpuUsage → q ≠ Res.cpuHistArr → ST2.live q = false := by
    intro q hq1 hq2
    rw [hST2, alloc_live_eq, if_neg hq2, alloc_live_eq, if_neg hq1]
    rfl
  have hth_row_R1 : ∀ t, R1.1.live (Res.threadHistRow t) = false := by
    intro t
    rw [hR1_other _ (by intro i; simp), hST2_false _ (by simp) (by simp)]
  have hstarted_R1 : R1.1.started = ctrl_st0.started := by
    rw [hR1, (alloc_rows_fields Res.cpuHistRow env.ok_cpuHistRow env.cpu_count 0 ST2).1]
    rfl
  by_cases h3 : R1.2.2 = false
  · rw [if_pos h3]
    refine ⟨hcpu_lt, fun c _ => hcpu_arr, ?_, ?_, ?_, ?_, fun h => by simp at h⟩
    · intro t h
      rw [show (⟨R1.1, false, 0, 0, true⟩ : StartRes).st = R1.1 from rfl, hth_row_R1 t] at h
      exact absurd h (by simp)
    · intro t h
      rw [show (⟨R1.1, false, 0, 0, true⟩ : StartRes).st = R1.1 from rfl, hth_row_R1 t] at h
      exact absurd h (by simp)
    · intro i h
      rw [show (⟨R1.1, false, 0, 0, true⟩ : StartRes).st = R1.1 from rfl, hstarted_R1] at h
      simp [ctrl_st0] at h
    · intro h
      rw [show (⟨R1.1, false, 0, 0, true⟩ : StartRes).st = R1.1 from rfl, hstarted_R1] at h
      simp [ctrl_st0] at h
  rw [if_neg h3]
  set ST5 := if env.ok_currSamp = true then
      alloc (if env.ok_prevSamp = true then alloc R1.1 Res.prevSamp else R1.1) Res.currSamp
    else if env.ok_prevSamp = true then alloc R1.1 Res.prevSamp else R1.1 with hST5
  have hST5_live : ∀ q : Res, q ≠ Res.prevSamp → q ≠ Res.currSamp →
      ST5.live q = R1.1.live q := by
    intro q hq1 hq2
    rw [hST5, live_ite_alloc _ _ _ _ hq2, live_ite_alloc _ _ _ _ hq1]
  have hST5_started : ST5.started = R1.1.started := by
    rw [hST5, started_ite_alloc, started_ite_alloc]
  by_cases h4 : (env.ok_prevSamp && env.ok_currSamp) = false
  · rw [if_pos h4]
    refine ⟨?_, ?_, ?_, ?_, ?_, ?_, fun h => by simp at h⟩
    · intro c h
      rw [show (⟨ST5, false, 0, 0, true⟩ : StartRes).st = ST5 from rfl,
        hST5_live _ (by simp) (by simp)] at h
      exact hcpu_lt c h
    · intro c _
      show ST5.live Res.cpuHistArr = true
      rw [hST5_live _ (by simp) (by simp)]
      exact hcpu_arr
    · intro t h
      rw [show (⟨ST5, false, 0, 0, true⟩ : StartRes).st = ST5 from rfl,
        hST5_live _ (by simp) (by simp), hth_row_R1 t] at h
      exact absurd h (by simp)
    · intro t h
      rw [show (⟨ST5, false, 0, 0, true⟩ : StartRes).st = ST5 from rfl,
        hST5_live _ (by simp) (by simp), hth_row_R1 t] at h
      exact absurd h (by simp)
    · intro i h
      rw [show (⟨ST5, false, 0, 0, true⟩ : StartRes).st = ST5 from rfl,
        hST5_started, hstarted_R1] at h
      simp [ctrl_st0] at h
    · intro h
      rw [show (⟨ST5, false, 0, 0, true⟩ : StartRes).st = ST5 from rfl,
        hST5_started, hstarted_R1] at h
      simp [ctrl_st0] at h
  rw [if_neg h4]
  by_cases h5 : env.ok_threadHistArr = false
  · rw [if_pos h5]
    refine ⟨?_, ?_, ?_, ?_, ?_, ?_, fun h => by simp at h⟩
    · intro c h
      rw [show (⟨ST5, false, 0, 0, true⟩ : StartRes).st = ST5 from rfl,
        hST5_live _ (by simp) (by simp)] at h
      exact hcpu_lt c h
    · intro c _
      show ST5.live Res.cpuHistArr = true
      rw [hST5_live _ (by simp) (by simp)]
      exact hcpu_arr
    · intro t h
      rw [show (⟨ST5, false, 0, 0, true⟩ : StartRes).st = ST5 from rfl,
        hST5_live _ (by simp) (by simp), hth_row_R1 t] at h
      exact absurd h (by simp)
    · intro t h
      rw [show (⟨ST5, false, 0, 0, true⟩ : StartRes).st = ST5 from rfl,
        hST5_live _ (by simp) (by simp), hth_row_R1 t] at h
      exact absurd h (by simp)
    · intro i h
      rw [show (⟨ST5, false, 0, 0, true⟩ : StartRes).st = ST5 from rfl,
        hST5_started, hstarted_R1] at h
      simp [ctrl_st0] at h
    · intro h
      rw [show (⟨ST5, false, 0, 0, true⟩ : StartRes).st = ST5 from rfl,
        hST5_started, hstarted_R1] at h
      simp [ctrl_st0] at h
  rw [if_neg h5]
  set ST6 := alloc ST5 Res.threadHistArr with hST6
  set R2 := alloc_rows Res.threadHistRow env.ok_threadHistRow 0 threads ST6 with hR2
  have hR2_other : ∀ q : Res, (∀ i, q ≠ Res.threadHistRow i) → R2.1.live q = ST6.live q :=
    fun q hq => alloc_rows_live_other Res.threadHistRow env.ok_threadHistRow threads 0 ST6 q hq
  have hcpu_lt2 : ∀ c, R2.1.live (Res.cpuHistRow c) = true → c < env.cpu_count := by
    intro c h
    rw [hR2_other _ (by intro i; simp), hST6, alloc_live_eq, if_neg (by simp),
      hST5_live _ (by simp) (by simp)] at h
    exact hcpu_lt c h
  have hcpu_arr2 : R2.1.live Res.cpuHistArr = true := by
    rw [hR2_other _ (by intro i; simp), hST6, alloc_live_eq, if_neg (by simp),
      hST5_live _ (by simp) (by simp)]
    exact hcpu_arr
  have hth_lt2 : ∀ t, R2.1.live (Res.threadHistRow t) = true → t < R2.2.1 := by
    intro t h
    rcases alloc_rows_live_row Res.threadHistRow env.ok_threadHistRow hinj_th
      threads 0 ST6 t h with h2 | h2
    · rw [hST6, alloc_live_eq, if_neg (by simp), hST5_live _ (by simp) (by simp),
        hth_row_R1 t] at h2
      exact absurd h2 (by simp)
    · exact h2
  have hth_arr2 : R2.1.live Res.threadHistArr = true := by
    rw [hR2_other _ (by intro i; simp), hST6, alloc_live_eq, if_pos rfl]
  have hstarted_R2 : R2.1.started = ctrl_st0.started := by
    rw [hR2, (alloc_rows_fields Res.threadHistRow env.ok_threadHistRow threads 0 ST6).1]
    show ST5.started = ctrl_st0.started
    rw [hST5_started, hstarted_R1]
  by_cases h6 : R2.2.2 = false
  · rw [if_pos h6]
    refine ⟨hcpu_lt2, fun c _ => hcpu_arr2, hth_lt2, fun t _ => hth_arr2, ?_, ?_,
      fun h => by simp at h⟩
    · intro i h
      rw [show (⟨R2.1, false, 0, R2.2.1, true⟩ : StartRes).st = R2.1 from rfl,
        hstarted_R2] at h
      simp [ctrl_st0] at h
    · intro h
      rw [show (⟨R2.1, false, 0, R2.2.1, true⟩ : StartRes).st = R2.1 from rfl,
        hstarted_R2] at h
      simp [ctrl_st0] at h
  rw [if_neg h6]
  set ST9 := if env.ok_workerThreadsArr = true then
      alloc (if env.ok_workersArr = true then alloc R2.1 Res.workersArr else R2.1)
        Res.workerThreadsArr
    else if env.ok_workersArr = true then alloc R2.1 Res.workersArr else R2.1 with hST9
  have hST9_live : ∀ q : Res, q ≠ Res.workersArr → q ≠ Res.workerThreadsArr →
      ST9.live q = R2.1.live q := by
    intro q hq1 hq2
    rw [hST9, live_ite_alloc _ _ _ _ hq2, live_ite_alloc _ _ _ _ hq1]
  have hST9_started : ST9.started = R2.1.started := by
    rw [hST9, started_ite_alloc, started_ite_alloc]
  by_cases h7 : (env.ok_workersArr && env.ok_workerThreadsArr) = false
  · rw [if_pos h7]
    refine ⟨?_, ?_, ?_, ?_, ?_, ?_, fun h => by simp at h⟩
    · intro c h
      rw [show (⟨ST9, false, 0, R2.2.1, true⟩ : StartRes).st = ST9 from rfl,
        hST9_live _ (by simp) (by simp)] at h
      exact hcpu_lt2 c h
    · intro c _
      show ST9.live Res.cpuHistArr = true
      rw [hST9_live _ (by simp) (by simp)]
      exact hcpu_arr2
    · intro t h
      rw [show (⟨ST9, false, 0, R2.2.1, true⟩ : StartRes).st = ST9 from rfl,
        hST9_live _ (by simp) (by simp)] at h
      exact hth_lt2 t h
    · intro t _
      show ST9.live Res.threadHistArr = true
      rw [hST9_live _ (by simp) (by simp)]
      exact hth_arr2
    · intro i h
      rw [show (⟨ST9, false, 0, R2.2.1, true⟩ : StartRes).st = ST9 from rfl,
        hST9_started, hstarted_R2] at h
      simp [ctrl_st0] at h
    · intro h
      rw [show (⟨ST9, false, 0, R2.2.1, true⟩ : StartRes).st = ST9 from rfl,
        hST9_started, hstarted_R2] at h
      simp [ctrl_st0] at h
  rw [if_neg h7]
  by_cases h8 : env.ok_samplerStart = false
  · rw [if_pos h8]
    refine ⟨?_, ?_, ?_, ?_, ?_, ?_, fun h => by simp at h⟩
    · intro c h
      rw [show (⟨ST9, false, 0, R2.2.1, true⟩ : StartRes).st = ST9 from rfl,
        hST9_live _ (by simp) (by simp)] at h
      exact hcpu_lt2 c h
    · intro c _
      show ST9.live Res.cpuHistArr = true
      rw [hST9_live _ (by simp) (by simp)]
      exact hcpu_arr2
    · intro t h
      rw [show (⟨ST9, false, 0, R2.2.1, true⟩ : StartRes).st = ST9 from rfl,
        hST9_live _ (by simp) (by simp)] at h
      exact hth_lt2 t h
    · intro t _
      show ST9.live Res.threadHistArr = true
      rw [hST9_live _ (by simp) (by simp)]
      exact hth_arr2
    · intro i h
      rw [show (⟨ST9, false, 0, R2.2.1, true⟩ : StartRes).st = ST9 from rfl,
        hST9_started, hstarted_R2] at h
      simp [ctrl_st0] at h
    · intro h
      rw [show (⟨ST9, false, 0, R2.2.1, true⟩ : StartRes).st = ST9 from rfl,
        hST9_started, hstarted_R2] at h
      simp [ctrl_st0] at h
  rw [if_neg h8]
  have hwa : env.ok_workersArr = true := by
    revert h7
    cases env.ok_workersArr <;> simp
  have hwta : env.ok_workerThreadsArr = true := by
    revert h7
    cases env.ok_workerThreadsArr <;> simp
  set ST10 := { ST9 with started := Function.update ST9.started Th.sampler true } with hST10
  set SW := start_workers env.ok_workerStart 0 threads ST10 with hSW
  have hSW_live : SW.1.live = ST9.live := by
    rw [hSW, start_workers_live]
  refine ⟨?_, ?_, ?_, ?_, ?_, fun _ => rfl, ?_⟩
  · intro c h
    rw [show (⟨SW.1, true, SW.2.1, R2.2.1, !SW.2.2⟩ : StartRes).st = SW.1 from rfl,
      hSW_live, hST9_live _ (by simp) (by simp)] at h
    exact hcpu_lt2 c h
  · intro c _
    show SW.1.live Res.cpuHistArr = true
    rw [hSW_live, hST9_live _ (by simp) (by simp)]
    exact hcpu_arr2
  · intro t h
    rw [show (⟨SW.1, true, SW.2.1, R2.2.1, !SW.2.2⟩ : StartRes).st = SW.1 from rfl,
      hSW_live, hST9_live _ (by simp) (by simp)] at h
    exact hth_lt2 t h
  · intro t _
    show SW.1.live Res.threadHistArr = true
    rw [hSW_live, hST9_live _ (by simp) (by simp)]
    exact hth_arr2
  · intro i h
    rw [show (⟨SW.1, true, SW.2.1, R2.2.1, !SW.2.2⟩ : StartRes).st = SW.1 from rfl] at h
    rcases start_workers_started_worker env.ok_workerStart threads 0 ST10 i h with h2 | h2
    · have h2' : Function.update ST9.started Th.sampler true (Th.worker i) = true := h2
      rw [Function.update_apply, if_neg (by simp)] at h2'
      rw [hST9_started, hstarted_R2] at h2'
      simp [ctrl_st0] at h2'
    · exact h2
  · intro h
    constructor
    · show SW.1.live Res.workersArr = true
      rw [hSW_live, hST9, live_ite_alloc _ _ _ _ (by simp), if_pos hwa, alloc_live_eq,
        if_pos rfl]
    · show SW.1.live Res.workerThreadsArr = true
      rw [hSW_live, hST9, if_pos hwta, alloc_live_eq, if_pos rfl]


lemma dealloc_started (st : CtrlSt) (r : Res) : (dealloc st r).started = st.started := rfl

lemma dealloc_stopped (st : CtrlSt) (r : Res) : (dealloc st r).stopped = st.stopped := rfl

lemma dealloc_joined (st : CtrlSt) (r : Res) : (dealloc st r).joined = st.joined := rfl

/-- The guarantee of the cleanup section, given the startup invariant:
afterwards no resource is live, every started thread has been joined,
every started worker has had its run flag cleared, and the record of
which threads were started is untouched. -/
lemma controller_cleanup_spec (env : CtrlEnv) (r : StartRes) (hinv : CtrlInv env r) :
    (∀ q : Res, (controller_cleanup env r).live q = false) ∧
      (controller_cleanup env r).started = r.st.started ∧
      (∀ t : Th, r.st.started t = true → (controller_cleanup env r).joined t = true) ∧
      (∀ i : Nat, r.st.started (Th.worker i) = true →
        (controller_cleanup env r).stopped (Th.worker i) = true) := by
  simp only [controller_cleanup]
  set S1 := if r.st.live Res.workersArr then stop_workers r.workers_started r.st else r.st
    with hS1
  set S2 := if S1.live Res.workerThreadsArr then join_workers r.workers_started S1 else S1
    with hS2
  set S3 := if r.sampler_started then
    { S2 with joined := Function.update S2.joined Th.sampler true } else S2 with hS3
  set S4 := if S3.live Res.threadHistArr then
    dealloc (free_rows Res.threadHistRow r.th_alloc S3) Res.threadHistArr else S3 with hS4
  set S7 := if (dealloc (dealloc S4 Res.workersArr) Res.workerThreadsArr).live Res.cpuHistArr
    then dealloc (free_rows Res.cpuHistRow env.cpu_count
        (dealloc (dealloc S4 Res.workersArr) Res.workerThreadsArr)) Res.cpuHistArr
    else dealloc (dealloc S4 Res.workersArr) Res.workerThreadsArr with hS7
  have f1_live : S1.live = r.st.live := by
    rw [hS1]; split
    · exact stop_workers_live _ _
    · rfl
  have f1_started : S1.started = r.st.started := by
    rw [hS1]; split
    · exact stop_workers_started _ _
    · rfl
  have f2_live : S2.live = r.st.live := by
    rw [hS2]; split
    · rw [join_workers_live, f1_live]
    · exact f1_live
  have f2_started : S2.started = r.st.started := by
    rw [hS2]; split
    · rw [join_workers_started, f1_started]
    · exact f1_started
  have f2_stopped : S2.stopped = S1.stopped := by
    rw [hS2]; split
    · exact join_workers_stopped _ _
    · rfl
  have f3_live : S3.live = r.st.live := by
    rw [hS3]; split
    · exact f2_live
    · exact f2_live
  have f3_started : S3.started = r.st.started := by
    rw [hS3]; split
    · exact f2_started
    · exact f2_started
  have f3_stopped : S3.stopped = S1.stopped := by
    rw [hS3]; split
    · exact f2_stopped
    · exact f2_stopped
  have f3_joined_mono : ∀ t : Th, S2.joined t = true → S3.joined t = true := by
    intro t h
    rw [hS3]; split
    · show Function.update S2.joined Th.sampler true t = true
      rw [Function.update_apply]
      split
      · rfl
      · exact h
    · exact h
  have f4_live_other : ∀ q : Res, q ≠ Res.threadHistArr → (∀ t, q ≠ Res.threadHistRow t) →
      S4.live q = r.st.live q := by
    intro q hq1 hq2
    rw [hS4]
    by_cases hcond : S3.live Res.threadHistArr = true
    · rw [if_pos hcond, dealloc_live_eq, if_neg hq1,
        free_rows_live_other _ _ _ _ hq2, f3_live]
    · rw [if_neg hcond, f3_live]
  have f4_row : ∀ t : Nat, S4.live (Res.threadHistRow t) = false := by
    intro t
    rw [hS4]
    by_cases hcond : S3.live Res.threadHistArr = true
    · rw [if_pos hcond, dealloc_live_eq, if_neg (by simp)]
      by_cases ht : t < r.th_alloc
      · exact free_rows_live_lt _ _ _ _ ht
      · apply free_rows_live_mono
        rw [f3_live]
        by_cases hl : r.st.live (Res.threadHistRow t) = true
        · exact absurd (hinv.th_row_lt t hl) ht
        · simpa using hl
    · rw [if_neg hcond, f3_live]
      by_cases hl : r.st.live (Res.threadHistRow t) = true
      · rw [f3_live] at hcond
        exact absurd (hinv.th_row_arr t hl) hcond
      · simpa using hl
  have f4_arr : S4.live Res.threadHistArr = false := by
    rw [hS4]
    by_cases hcond : S3.live Res.threadHistArr = true
    · rw [if_pos hcond, dealloc_live_eq, if_pos rfl]
    · rw [if_neg hcond]
      simp only [Bool.not_eq_true] at hcond
      exact hcond
  have f4_started : S4.started = r.st.started := by
    rw [hS4]
    by_cases hcond : S3.live Res.threadHistArr = true
    · rw [if_pos hcond, dealloc_started, (free_rows_fields _ _ _).1]
      exact f3_started
    · rw [if_neg hcond]
      exact f3_started
  have f4_stopped : S4.stopped = S1.stopped := by
    rw [hS4]
    by_cases hcond : S3.live Res.threadHistArr = true
    · rw [if_pos hcond, dealloc_stopped, (free_rows_fields _ _ _).2.1]
      exact f3_stopped
    · rw [if_neg hcond]
      exact f3_stopped
  have f4_joined : S4.joined = S3.joined := by
    rw [hS4]
    by_cases hcond : S3.live Res.threadHistArr = true
    · rw [if_pos hcond, dealloc_joined, (free_rows_fields _ _ _).2.2]
    · rw [if_neg hcond]
  have hbase_live : ∀ q : Res, q ≠ Res.workersArr → q ≠ Res.workerThreadsArr →
      (dealloc (dealloc S4 Res.workersArr) Res.workerThreadsArr).live q = S4.live q := by
    intro q hq1 hq2
    rw [dealloc_live_eq, if_neg hq2, dealloc_live_eq, if_neg hq1]
  have hbase_arr : (dealloc (dealloc S4 Res.workersArr) Res.workerThreadsArr).live
      Res.cpuHistArr = r.st.live Res.cpuHistArr := by
    rw [hbase_live _ (by simp) (by simp)]
    exact f4_live_other _ (by simp) (by intro t; simp)
  have hbase_row : ∀ c : Nat, (dealloc (dealloc S4 Res.workersArr)
      Res.workerThreadsArr).live (Res.cpuHistRow c) = r.st.live (Res.cpuHistRow c) := by
    intro c
    rw [hbase_live _ (by simp) (by simp)]
    exact f4_live_other _ (by simp) (by intro t; simp)
  have hbase_w : (dealloc (dealloc S4 Res.workersArr) Res.workerThreadsArr).live
      Res.workersArr = false := by
    rw [dealloc_live_eq, if_neg (by simp), dealloc_live_eq, if_pos rfl]
  have hbase_wt : (dealloc (dealloc S4 Res.workersArr) Res.workerThreadsArr).live
      Res.workerThreadsArr = false := by
    rw [dealloc_live_eq, if_pos rfl]
  have f7_row : ∀ c : Nat, S7.live (Res.cpuHistRow c) = false := by
    intro c
    rw [hS7]
    by_cases hcond : (dealloc (dealloc S4 Res.workersArr)
        Res.workerThreadsArr).live Res.cpuHistArr = true
    · rw [if_pos hcond, dealloc_live_eq, if_neg (by simp)]
      by_cases hc : c < env.cpu_count
      · exact free_rows_live_lt _ _ _ _ hc
      · apply free_rows_live_mono
        rw [hbase_row c]
        by_cases hl : r.st.live (Res.cpuHistRow c) = true
        · exact absurd (hinv.cpu_row_lt c hl) hc
        · simpa using hl
    · rw [if_neg hcond, hbase_row c]
      by_cases hl : r.st.live (Res.cpuHistRow c) = true
      · rw [hbase_arr] at hcond
        exact absurd (hinv.cpu_row_arr c hl) hcond
      · simpa using hl
  have f7_arr : S7.live Res.cpuHistArr = false := by
    rw [hS7]
    by_cases hcond : (dealloc (dealloc S4 Res.workersArr)
        Res.workerThreadsArr).live Res.cpuHistArr = true
    · rw [if_pos hcond, dealloc_live_eq, if_pos rfl]
    · rw [if_neg hcond]
      simp only [Bool.not_eq_true] at hcond
      exact hcond
  have f7_other : ∀ q : Res, q ≠ Res.cpuHistArr → (∀ c, q ≠ Res.cpuHistRow c) →
      q ≠ Res.workersArr → q ≠ Res.workerThreadsArr →
      S7.live q = S4.live q := by
    intro q hq1 hq2 hq3 hq4
    rw [hS7]
    by_cases hcond : (dealloc (dealloc S4 Res.workersArr)
        Res.workerThreadsArr).live Res.cpuHistArr = true
    · rw [if_pos hcond, dealloc_live_eq, if_neg hq1,
        free_rows_live_other _ _ _ _ hq2, hbase_live _ hq3 hq4]
    · rw [if_neg hcond, hbase_live _ hq3 hq4]
  have f7_w : S7.live Res.workersArr = false := by
    rw [hS7]
    by_cases hcond : (dealloc (dealloc S4 Res.workersArr)
        Res.workerThreadsArr).live Res.cpuHistArr = true
    · rw [if_pos hcond, dealloc_live_eq, if_neg (by simp),
        free_rows_live_other _ _ _ _ (by intro c; simp)]
      exact hbase_w
    · rw [if_neg hcond]
      exact hbase_w
  have f7_wt : S7.live Res.workerThreadsArr = false := by
    rw [hS7]
    by_cases hcond : (dealloc (dealloc S4 Res.workersArr)
        Res.workerThreadsArr).live Res.cpuHistArr = true
    · rw [if_pos hcond, dealloc_live_eq, if_neg (by simp),
        free_rows_live_other _ _ _ _ (by intro c; simp)]
      exact hbase_wt
    · rw [if_neg hcond]
      exact hbase_wt
  have f7_started : S7.started = r.st.started := by
    rw [hS7]
    by_cases hcond : (dealloc (dealloc S4 Res.workersArr)
        Res.workerThreadsArr).live Res.cpuHistArr = true
    · rw [if_pos hcond, dealloc_started, (free_rows_fields _ _ _).1,
        dealloc_started, dealloc_started]
      exact f4_started
    · rw [if_neg hcond, dealloc_started, dealloc_started]
      exact f4_started
  have f7_stopped : S7.stopped = S1.stopped := by
    rw [hS7]
    by_cases hcond : (dealloc (dealloc S4 Res.workersArr)
        Res.workerThreadsArr).live Res.cpuHistArr = true
    · rw [if_pos hcond, dealloc_stopped, (free_rows_fields _ _ _).2.1,
        dealloc_stopped, dealloc_stopped]
      exact f4_stopped
    · rw [if_neg hcond, dealloc_stopped, dealloc_stopped]
      exact f4_stopped
  have f7_joined : S7.joined = S3.joined := by
    rw [hS7]
    by_cases hcond : (dealloc (dealloc S4 Res.workersArr)
        Res.workerThreadsArr).live Res.cpuHistArr = true
    · rw [if_pos hcond, dealloc_joined, (free_rows_fields _ _ _).2.2,
        dealloc_joined, dealloc_joined]
      exact f4_joined
    · rw [if_neg hcond, dealloc_joined, dealloc_joined]
      exact f4_joined
  have ffin_live : ∀ q : Res, q ≠ Res.cpuUsage → q ≠ Res.prevSamp → q ≠ Res.currSamp →
      (dealloc (dealloc (dealloc S7 Res.cpuUsage) Res.prevSamp) Res.currSamp).live q
        = S7.live q := by
    intro q h1 h2 h3
    rw [dealloc_live_eq, if_neg h3, dealloc_live_eq, if_neg h2, dealloc_live_eq, if_neg h1]
  refine ⟨?_, ?_, ?_, ?_⟩
  · intro q
    cases q with
    | cpuUsage =>
      rw [dealloc_live_eq, if_neg (by simp), dealloc_live_eq, if_neg (by simp),
        dealloc_live_eq, if_pos rfl]
    | cpuHistArr =>
      rw [ffin_live _ (by simp) (by simp) (by simp)]
      exact f7_arr
    | cpuHistRow c =>
      rw [ffin_live _ (by simp) (by simp) (by simp)]
      exact f7_row c
    | prevSamp =>
      rw [dealloc_live_eq, if_neg (by simp), dealloc_live_eq, if_pos rfl]
    | currSamp =>
      rw [dealloc_live_eq, if_pos rfl]
    | threadHistArr =>
      rw [ffin_live _ (by simp) (by simp) (by simp),
        f7_other _ (by simp) (by intro c; simp) (by simp) (by simp)]
      exact f4_arr
    | threadHistRow t =>
      rw [ffin_live _ (by simp) (by simp) (by simp),
        f7_other _ (by simp) (by intro c; simp) (by simp) (by simp)]
      exact f4_row t
    | workersArr =>
      rw [ffin_live _ (by simp) (by simp) (by simp)]
      exact f7_w
    | workerThreadsArr =>
      rw [ffin_live _ (by simp) (by simp) (by simp)]
      exact f7_wt
  · rw [dealloc_started, dealloc_started, dealloc_started]
    exact f7_started
  · intro t ht
    rw [dealloc_joined, dealloc_joined, dealloc_joined, f7_joined]
    cases t with
    | sampler =>
      have hs : r.sampler_started = true := hinv.sampler_flag ht
      rw [hS3, if_pos hs]
      show Function.update S2.joined Th.sampler true Th.sampler = true
      simp [Function.update_apply]
    | worker i =>
      have hlt : i < r.workers_started := hinv.worker_lt i ht
      have harr := hinv.arrs_live (by omega)
      apply f3_joined_mono
      rw [hS2]
      have hwt : S1.live Res.workerThreadsArr = true := by
        rw [f1_live]; exact harr.2
      rw [if_pos hwt]
      exact join_workers_joined_lt _ _ i hlt
  · intro i hi
    rw [dealloc_stopped, dealloc_stopped, dealloc_stopped, f7_stopped]
    have hlt : i < r.workers_started := hinv.worker_lt i hi
    have harr := hinv.arrs_live (by omega)
    rw [hS1, if_pos harr.1]
    exact stop_workers_stopped_lt _ _ i hlt

/-- In every controller run — failed startup or not — every thread the
startup sequence started has been joined when `controller_thread_func`
returns. -/
lemma controller_joins_started (cenv : CtrlEnv) (threads : Nat) :
    ∀ t : Th, (controller_startup cenv threads).st.started t = true →
      (controller_thread_func cenv threads).1.joined t = true := by
  have h := controller_cleanup_spec cenv (controller_startup cenv threads)
    (controller_startup_inv cenv threads)
  exact h.2.2.1

/-- C2: if any allocation or thread creation fails during the startup
sequence of `controller_thread_func`, the controller leaves no partial
state: after the function returns, no buffer it allocates is still
live, every thread it started (sampler and workers) has been joined,
every started worker has had its run flag cleared, and the steady
running phase (the poll loop) was never entered. -/
theorem controller_rollback_on_startup_failure (env : CtrlEnv) (threads : Nat)
    (hfail : (controller_startup env threads).failed = true) :
    (∀ q : Res, (controller_thread_func env threads).1.live q = false) ∧
      (∀ t : Th, (controller_startup env threads).st.started t = true →
        (controller_thread_func env threads).1.joined t = true) ∧
      (∀ i : Nat, (controller_startup env threads).st.started (Th.worker i) = true →
        (controller_thread_func env threads).1.stopped (Th.worker i) = true) ∧
      (controller_thread_func env threads).2 = false := by
  obtain ⟨h1, _, h3, h4⟩ := controller_cleanup_spec env (controller_startup env threads)
    (controller_startup_inv env threads)
  refine ⟨h1, h3, h4, ?_⟩
  show (!(controller_startup env threads).failed) = false
  rw [hfail]
  rfl

/-- An environment in which the very first startup allocation (the
CPU-usage buffer) fails. -/
def ctrl_env_alloc_fail : CtrlEnv :=
  { cpu_count := 1, ok_cpuUsage := false, ok_cpuHistArr := true,
    ok_cpuHistRow := fun _ => true, ok_prevSamp := true, ok_currSamp := true,
    ok_threadHistArr := true, ok_threadHistRow := fun _ => true,
    ok_workersArr := true, ok_workerThreadsArr := true, ok_samplerStart := true,
    ok_workerStart := fun _ => true }

theorem controller_rollback_on_startup_failure_witness :
    (controller_startup ctrl_env_alloc_fail 2).failed = true ∧
      ((∀ q : Res, (controller_thread_func ctrl_env_alloc_fail 2).1.live q = false) ∧
        (∀ t : Th, (controller_startup ctrl_env_alloc_fail 2).st.started t = true →
          (controller_thread_func ctrl_env_alloc_fail 2).1.joined t = true) ∧
        (∀ i : Nat,
          (controller_startup ctrl_env_alloc_fail 2).st.started (Th.worker i) = true →
          (controller_thread_func ctrl_env_alloc_fail 2).1.stopped (Th.worker i) = true) ∧
        (controller_thread_func ctrl_env_alloc_fail 2).2 = false) :=
  ⟨rfl, controller_rollback_on_startup_failure ctrl_env_alloc_fail 2 rfl⟩

/-- C3: if a worker's buffer allocation fails, or its pointer-chase
index-array allocation fails, `worker_main` sets the status to
`WORKER_ALLOC_FAIL`, adds exactly one to the session error counter, and
returns before the run loop: no iteration is counted and no kernel is
invoked.  The failure is local to the worker: the controller run is
unaffected by worker statuses, and every worker the controller started
is still joined at shutdown. -/
theorem worker_alloc_failure_is_local (cfg : WorkerCfg) (env : WorkerEnv)
    (hfail : (0 < cfg.buf_bytes ∧ env.buf_alloc_ok = false) ∨
      (cfg.ptr_en ∧ 0 < cfg.buf_bytes ∧ 0 < cfg.buf_bytes / 4 ∧
        env.idx_alloc_ok = false)) :
    (worker_main cfg env).status = worker_status_t.WORKER_ALLOC_FAIL ∧
      (worker_main cfg env).errors_added = 1 ∧
      (worker_main cfg env).iters_added = 0 ∧
      (worker_main cfg env).kernel_calls = 0 ∧
      ∀ (cenv : CtrlEnv) (threads i : Nat),
        (controller_startup cenv threads).st.started (Th.worker i) = true →
        (controller_thread_func cenv threads).1.joined (Th.worker i) = true := by
  have hres : worker_main cfg env =
      { status := .WORKER_ALLOC_FAIL, errors_added := 1, iters_added := 0,
        kernel_calls := 0, buf_live := false, idx_live := false } := by
    rcases hfail with ⟨hb, hok⟩ | ⟨hp, hb, hq, hok⟩
    · rw [worker_main, if_pos ⟨hb, hok⟩]
    · by_cases hba : env.buf_alloc_ok = false
      · rw [worker_main, if_pos ⟨hb, hba⟩]
      · rw [worker_main, if_neg (fun hc => hba hc.2), if_pos ⟨hp, hb, hq, hok⟩]
  rw [hres]
  exact ⟨rfl, rfl, rfl, rfl,
    fun cenv threads i h => controller_joins_started cenv threads (Th.worker i) h⟩

/-- A worker configuration (integer kernel plus pointer chase on a
4 KiB buffer) whose buffer allocation fails. -/
def worker_cfg_alloc_fail : WorkerCfg :=
  { tid := 0, buf_bytes := 4096, fpu_en := false, int_en := true,
    stream_en := false, ptr_en := true }

theorem worker_alloc_failure_is_local_witness :
    ((0 < worker_cfg_alloc_fail.buf_bytes ∧ (false : Bool) = false) ∨
      (worker_cfg_alloc_fail.ptr_en ∧ 0 < worker_cfg_alloc_fail.buf_bytes ∧
        0 < worker_cfg_alloc_fail.buf_bytes / 4 ∧ (true : Bool) = false)) ∧
      (worker_main worker_cfg_alloc_fail ⟨false, true, 7⟩).status
          = worker_status_t.WORKER_ALLOC_FAIL ∧
        (worker_main worker_cfg_alloc_fail ⟨false, true, 7⟩).errors_added = 1 ∧
        (worker_main worker_cfg_alloc_fail ⟨false, true, 7⟩).iters_added = 0 ∧
        (worker_main worker_cfg_alloc_fail ⟨false, true, 7⟩).kernel_calls = 0 ∧
        ∀ (cenv : CtrlEnv) (threads i : Nat),
          (controller_startup cenv threads).st.started (Th.worker i) = true →
          (controller_thread_func cenv threads).1.joined (Th.worker i) = true :=
  ⟨Or.inl ⟨by decide, rfl⟩,
    worker_alloc_failure_is_local worker_cfg_alloc_fail ⟨false, true, 7⟩
      (Or.inl ⟨by decide, rfl⟩)⟩

end HardStress
